import Mathlib

/-! # Solarus camera (`src/src/Camera.cpp`)

A shallow embedding of the `Camera` class of the Solarus engine and the
properties of its update, separator and seek logic.

Conventions of the embedding:

* C++ `int` values are `Int`; signed overflow is undefined behaviour in C++
  and is not modelled.  `a / 2` on `int` is `Int.tdiv a 2` (rounds toward
  zero).
* `uint32_t` values (`System::now()`, `separator_next_scrolling_date`) are
  `Nat` reduced modulo `2 ^ 32` where the C++ converts or increments them.
* `Debug::check_assertion` failures make a function return `none`.
* The collaborators whose sources are outside `Camera.cpp` (`Rectangle`,
  `Separator`, `Hero`, `Map`, `TargetMovement`, the Lua context) are records
  holding exactly what `Camera.cpp` reads and writes.
-/

namespace Solarus

/-- Modelled from the spec: `Rectangle` (lowlevel/Rectangle.h is not among the
sources): "rectangle: x, y, width, height". -/
structure Rectangle where
  x : Int
  y : Int
  width : Int
  height : Int
deriving DecidableEq, Repr

namespace Rectangle

def get_x (r : Rectangle) : Int := r.x
def get_y (r : Rectangle) : Int := r.y
def get_width (r : Rectangle) : Int := r.width
def get_height (r : Rectangle) : Int := r.height

/-- Modelled from the spec: `Rectangle::set_xy` moves the corner and keeps
the size ("`position.width/height` never change"). -/
def set_xy (r : Rectangle) (x y : Int) : Rectangle := { r with x := x, y := y }

/-- Modelled from the spec: `Rectangle::add_x` shifts the rectangle in `x`. -/
def add_x (r : Rectangle) (dx : Int) : Rectangle := { r with x := r.x + dx }

/-- Modelled from the spec: `Rectangle::add_y` shifts the rectangle in `y`. -/
def add_y (r : Rectangle) (dy : Int) : Rectangle := { r with y := r.y + dy }

/-- Modelled from the spec: `Rectangle::add_xy` shifts the rectangle. -/
def add_xy (r : Rectangle) (dx dy : Int) : Rectangle :=
  { r with x := r.x + dx, y := r.y + dy }

/-- Modelled from the spec: `Rectangle::equals` compares the four fields
("loop stops exactly when `scrolling_position == target_position`"). -/
def equals (r other : Rectangle) : Bool := decide (r = other)

end Rectangle

/-- Modelled from the spec: `Separator` (entities/Separator.h is not among the
sources): "orientation (horizontal|vertical), position, length", together
with the bounding box and the center point that `Camera.cpp` reads.  The
orientation is one flag, so `is_horizontal` is the negation of `is_vertical`
and the assertion "Invalid separator shape" of the first scan cannot fail. -/
structure Separator where
  vertical : Bool
  x : Int
  y : Int
  width : Int
  height : Int
  center_x : Int
  center_y : Int
deriving DecidableEq, Repr

namespace Separator

def is_vertical (s : Separator) : Bool := s.vertical
def is_horizontal (s : Separator) : Bool := !s.vertical
def get_x (s : Separator) : Int := s.x
def get_y (s : Separator) : Int := s.y
def get_width (s : Separator) : Int := s.width
def get_height (s : Separator) : Int := s.height

end Separator

/-- Modelled from the spec: the tracked actor (entities/Hero.h is not among
the sources): "exposes the current center point and position of the followed
actor, and allows nudging its position".  The center point moves with the
position. -/
structure Hero where
  x : Int
  y : Int
  center_x : Int
  center_y : Int
deriving DecidableEq, Repr

namespace Hero

def get_x (h : Hero) : Int := h.x
def get_y (h : Hero) : Int := h.y

/-- Moving the hero translates its center point by the same vector. -/
def set_xy (h : Hero) (x y : Int) : Hero :=
  { x := x, y := y,
    center_x := h.center_x + (x - h.x),
    center_y := h.center_y + (y - h.y) }

end Hero

/-- Modelled from the spec: the map as seen by the camera (Map.h and
entities/MapEntities.h are not among the sources): world bounds, tracked
actor and separator registry. -/
structure Map where
  location : Rectangle
  hero : Hero
  separators : List Separator
deriving DecidableEq, Repr

/-- Modelled from the spec: `TargetMovement` (movements/TargetMovement.h is
not among the sources): "given a start point, target point, and speed".
`x`, `y` is the current point of the movement. -/
structure TargetMovement where
  target_x : Int
  target_y : Int
  speed : Int
  ignore_obstacles : Bool
  x : Int
  y : Int
deriving DecidableEq, Repr

/-- Modelled from the spec: the black-box behaviour of the point-seeking
movement: `advance(handle)` and `is_finished(handle)`. -/
structure MovementOps where
  update : TargetMovement → TargetMovement
  is_finished : TargetMovement → Bool

/-- Modelled from the spec: the two notifications sent to the Lua context
(lua/LuaContext.h is not among the sources). -/
inductive Notification where
  | map_on_camera_back
  | notify_camera_reached_target
deriving DecidableEq, Repr

/-- The data members of `Camera` (the reference to the map is passed to each
operation instead). -/
structure Camera where
  position : Rectangle
  fixed_on_hero : Bool
  separator_scrolling_dx : Int
  separator_scrolling_dy : Int
  separator_next_scrolling_date : Nat
  separator_scrolling_position : Rectangle
  separator_target_position : Rectangle
  restoring : Bool
  speed : Int
  movement : Option TargetMovement
deriving DecidableEq, Repr

/-- Number of values of a `uint32_t`. -/
def UINT32_SIZE : Nat := 2 ^ 32

namespace Camera

/-- `Camera::Camera`: `quest_size` is `VideoManager::get_quest_size()`.  The
two rectangles of the traversal are default-constructed. -/
def create (quest_size : Rectangle) : Camera :=
  { position := quest_size
    fixed_on_hero := true
    separator_scrolling_dx := 0
    separator_scrolling_dy := 0
    separator_next_scrolling_date := 0
    separator_scrolling_position := ⟨0, 0, 0, 0⟩
    separator_target_position := ⟨0, 0, 0, 0⟩
    restoring := false
    speed := 120
    movement := none }

def get_width (cam : Camera) : Int := cam.position.get_width
def get_height (cam : Camera) : Int := cam.position.get_height

/-- State of the first loop over the separators (lines 106-152). -/
structure Scan where
  adjusted_x : Int
  adjusted_y : Int
  applied_separators : List Separator
deriving DecidableEq, Repr

/-- Body of the first loop (lines 113-151) for the raw corner `(x, y)` and the
viewport size `(w, h)`. -/
def first_scan_step (w h x y : Int) (st : Scan) (separator : Separator) : Scan :=
  if separator.is_vertical then
    let separation_x := separator.get_x + 8
    if x < separation_x ∧ separation_x < x + w
        ∧ separator.get_y < y + h
        ∧ y < separator.get_y + separator.get_height then
      let left := separation_x - x
      let right := x + w - separation_x
      { st with
        adjusted_x := if left > right then separation_x - w else separation_x
        applied_separators := st.applied_separators ++ [separator] }
    else st
  else
    let separation_y := separator.get_y + 8
    if y < separation_y ∧ separation_y < y + h
        ∧ separator.get_x < x + w
        ∧ x < separator.get_x + separator.get_width then
      let top := separation_y - y
      let bottom := y + h - separation_y
      { st with
        adjusted_y := if top > bottom then separation_y - h else separation_y
        applied_separators := st.applied_separators ++ [separator] }
    else st

/-- The first loop (lines 106-152). -/
def first_scan (w h x y : Int) (separators : List Separator) : Scan :=
  separators.foldl (first_scan_step w h x y) ⟨x, y, []⟩

/-- Body of the second loop (lines 164-185): the state is
`(must_adjust_x, must_adjust_y)`. -/
def second_scan_step (w h x y adjusted_x adjusted_y : Int)
    (st : Bool × Bool) (separator : Separator) : Bool × Bool :=
  if separator.is_vertical then
    let separation_x := separator.get_x + 8
    if x < separation_x ∧ separation_x < x + w
        ∧ separator.get_y < adjusted_y + h
        ∧ adjusted_y < separator.get_y + separator.get_height then
      (true, st.2)
    else st
  else
    let separation_y := separator.get_y + 8
    if y < separation_y ∧ separation_y < y + h
        ∧ separator.get_x < adjusted_x + w
        ∧ adjusted_x < separator.get_x + separator.get_width then
      (st.1, true)
    else st

/-- Lines 154-187: which adjustments are kept. -/
def must_adjust (w h x y : Int) (sc : Scan) : Bool × Bool :=
  if sc.adjusted_x ≠ x ∧ sc.adjusted_y ≠ y then
    sc.applied_separators.foldl
      (second_scan_step w h x y sc.adjusted_x sc.adjusted_y) (false, false)
  else (true, true)

/-- Lines 106-194: the coordinates after applying the separators to the raw
corner `(x, y)`, before the limits of the map are taken into account. -/
def resolve_separators (w h x y : Int) (separators : List Separator) : Int × Int :=
  let sc := first_scan w h x y separators
  let m := must_adjust w h x y sc
  (if m.1 then sc.adjusted_x else x, if m.2 then sc.adjusted_y else y)

/-- One iteration of the catch-up loop (lines 201-209). -/
def scroll_step (cam : Camera) : Camera :=
  let pos := cam.separator_scrolling_position.add_xy
    cam.separator_scrolling_dx cam.separator_scrolling_dy
  let date := (cam.separator_next_scrolling_date + 1) % UINT32_SIZE
  { cam with
    separator_scrolling_position := pos
    separator_next_scrolling_date :=
      if pos.equals cam.separator_target_position then 0 else date }

/-- The catch-up loop (lines 199-210), at most `fuel` iterations. -/
def scroll_loop : Nat → Nat → Camera → Camera
  | 0, _, cam => cam
  | fuel + 1, now, cam =>
    if cam.separator_next_scrolling_date ≠ 0
        ∧ now ≥ cam.separator_next_scrolling_date then
      scroll_loop fuel now (scroll_step cam)
    else cam

/-- Lines 215-231 for one axis: `v` is the coordinate, `map_size` and `size`
the dimensions of the map and of the camera on that axis. -/
def clamp_to_map (map_size size v : Int) : Int :=
  if map_size < size then Int.tdiv (map_size - size) 2
  else min (max v 0) (map_size - size)

/-- `Camera::update_fixed_on_hero`; `now` is the value of `System::now()`. -/
def update_fixed_on_hero (map : Map) (now : Nat) (cam : Camera) : Option Camera :=
  if cam.fixed_on_hero then
    let r : Camera × Int × Int :=
      if cam.separator_next_scrolling_date = 0 then
        let hero_x := map.hero.center_x
        let hero_y := map.hero.center_y
        let x := hero_x - Int.tdiv cam.get_width 2
        let y := hero_y - Int.tdiv cam.get_height 2
        let p := resolve_separators cam.get_width cam.get_height x y map.separators
        (cam, p.1, p.2)
      else
        let now := now % UINT32_SIZE
        let cam := scroll_loop (now + 1 - cam.separator_next_scrolling_date) now cam
        (cam, cam.separator_scrolling_position.get_x,
          cam.separator_scrolling_position.get_y)
    let cam := r.1
    let x := clamp_to_map map.location.get_width cam.get_width r.2.1
    let y := clamp_to_map map.location.get_height cam.get_height r.2.2
    some { cam with position := cam.position.set_xy x y }
  else none

/-- `Camera::update_moving`, with the notifications sent to the Lua context. -/
def update_moving (ops : MovementOps) (cam : Camera) :
    Option (Camera × List Notification) :=
  if !cam.fixed_on_hero then
    match cam.movement with
    | none => some (cam, [])
    | some movement =>
      let movement := ops.update movement
      let x := movement.x - Int.tdiv cam.get_width 2
      let y := movement.y - Int.tdiv cam.get_height 2
      let r : Camera × List Notification :=
        if ops.is_finished movement then
          let cam := { cam with movement := none }
          if cam.restoring then
            ({ cam with restoring := false, fixed_on_hero := true },
              [Notification.map_on_camera_back])
          else (cam, [Notification.notify_camera_reached_target])
        else ({ cam with movement := some movement }, [])
      some ({ r.1 with position := r.1.position.set_xy x y }, r.2)
  else none

/-- `Camera::update`. -/
def update (ops : MovementOps) (map : Map) (now : Nat) (cam : Camera) :
    Option (Camera × List Notification) :=
  if cam.fixed_on_hero then
    (update_fixed_on_hero map now cam).map (fun c => (c, []))
  else if cam.movement ≠ none then
    update_moving ops cam
  else some (cam, [])

/-- `Camera::is_moving`. -/
def is_moving (cam : Camera) : Bool :=
  !cam.fixed_on_hero || cam.separator_next_scrolling_date != 0

/-- `Camera::set_speed`. -/
def set_speed (cam : Camera) (speed : Int) : Camera := { cam with speed := speed }

/-- `Camera::move(int, int)`. -/
def move (map : Map) (cam : Camera) (target_x target_y : Int) : Camera :=
  let target_x := min (max target_x (Int.tdiv cam.get_width 2))
    (map.location.get_width - Int.tdiv cam.get_width 2)
  let target_y := min (max target_y (Int.tdiv cam.get_height 2))
    (map.location.get_height - Int.tdiv cam.get_height 2)
  let movement : TargetMovement :=
    { target_x := target_x, target_y := target_y, speed := cam.speed,
      ignore_obstacles := true,
      x := cam.position.get_x + Int.tdiv cam.get_width 2,
      y := cam.position.get_y + Int.tdiv cam.get_height 2 }
  { cam with movement := some movement, fixed_on_hero := false }

/-- `Camera::move(MapEntity&)`, for an entity whose center point is
`(center_x, center_y)`. -/
def move_entity (map : Map) (cam : Camera) (center_x center_y : Int) : Camera :=
  move map cam center_x center_y

/-- `Camera::restore`. -/
def restore (map : Map) (cam : Camera) : Camera :=
  { move_entity map cam map.hero.center_x map.hero.center_y with restoring := true }

/-- `Camera::traverse_separator`; `now` is the value of `System::now()`.  The
hero of the map is moved, so the map is returned with the camera. -/
def traverse_separator (map : Map) (separator : Separator) (now : Nat)
    (cam : Camera) : Camera × Map :=
  let d : Int × Int × Rectangle :=
    if separator.is_horizontal then
      if map.hero.center_y < separator.center_y then
        (0, 1, cam.position.add_y cam.get_height)
      else
        (0, -1, cam.position.add_y (-cam.get_height))
    else
      if map.hero.center_x < separator.center_x then
        (1, 0, cam.position.add_x cam.get_width)
      else
        (-1, 0, cam.position.add_x (-cam.get_width))
  let cam := { cam with
    separator_scrolling_position := cam.position
    separator_scrolling_dx := d.1
    separator_scrolling_dy := d.2.1
    separator_target_position := d.2.2
    separator_next_scrolling_date := now % UINT32_SIZE }
  (cam, { map with
    hero := map.hero.set_xy
      (map.hero.get_x + 2 * cam.separator_scrolling_dx)
      (map.hero.get_y + 2 * cam.separator_scrolling_dy) })

/-- The test of lines 119-121 (vertical separator) and 138-140 (horizontal
separator): the separator is active on the rectangle with top-left corner
`(x, y)` and size `(w, h)`. -/
def separator_active (w h x y : Int) (s : Separator) : Prop :=
  if s.is_vertical then
    x < s.get_x + 8 ∧ s.get_x + 8 < x + w ∧ s.get_y < y + h ∧ y < s.get_y + s.get_height
  else
    y < s.get_y + 8 ∧ s.get_y + 8 < y + h ∧ s.get_x < x + w ∧ x < s.get_x + s.get_width

instance (w h x y : Int) (s : Separator) : Decidable (separator_active w h x y s) := by
  unfold separator_active
  exact inferInstance

/-- The condition of lines 170-172 of the second loop. -/
def still_intersects_x (w h x adjusted_y : Int) (s : Separator) : Prop :=
  s.is_vertical = true ∧ x < s.get_x + 8 ∧ s.get_x + 8 < x + w
    ∧ s.get_y < adjusted_y + h ∧ adjusted_y < s.get_y + s.get_height

/-- The condition of lines 180-182 of the second loop. -/
def still_intersects_y (w h y adjusted_x : Int) (s : Separator) : Prop :=
  s.is_vertical = false ∧ y < s.get_y + 8 ∧ s.get_y + 8 < y + h
    ∧ s.get_x < adjusted_x + w ∧ adjusted_x < s.get_x + s.get_width

/-- A sequence of calls of `update`, one per frame; each frame gives the map
as it is at that frame (the hero may have moved) and the value of the clock. -/
def run_updates (ops : MovementOps) : List (Map × Nat) → Camera → Option Camera
  | [], cam => some cam
  | (map, now) :: frames, cam =>
    match update ops map now cam with
    | some (cam', _) => run_updates ops frames cam'
    | none => none

/-- State of a traversal started at tick `t0` from the position `p` with the
step `(dx, dy)` and `n` steps to do, after `k` steps. -/
def Traversing (p : Rectangle) (dx dy : Int) (t0 n k : Nat) (cam : Camera) : Prop :=
  cam.fixed_on_hero = true
  ∧ cam.separator_scrolling_dx = dx ∧ cam.separator_scrolling_dy = dy
  ∧ cam.separator_target_position = p.add_xy (n * dx) (n * dy)
  ∧ cam.separator_scrolling_position = p.add_xy (k * dx) (k * dy)
  ∧ ((k = n ∧ cam.separator_next_scrolling_date = 0)
      ∨ (k < n ∧ cam.separator_next_scrolling_date = t0 + k))

/-- The dimension of the camera on the axis along which `traverse_separator`
scrolls (lines 375-394): the height for a horizontal separator, the width for
a vertical one. -/
def scroll_dimension (separator : Separator) (cam : Camera) : Int :=
  if separator.is_horizontal then cam.get_height else cam.get_width

instance (w h x adjusted_y : Int) (s : Separator) :
    Decidable (still_intersects_x w h x adjusted_y s) := by
  unfold still_intersects_x
  exact inferInstance

instance (w h y adjusted_x : Int) (s : Separator) :
    Decidable (still_intersects_y w h y adjusted_x s) := by
  unfold still_intersects_y
  exact inferInstance

/-- A call of the public interface of `Camera`; `now` is the value of
`System::now()` during the call, `move_entity` carries the center point of
the target entity. -/
inductive Call where
  | update (now : Nat)
  | move (target_x target_y : Int)
  | move_entity (center_x center_y : Int)
  | restore
  | set_speed (speed : Int)
  | traverse_separator (separator : Separator) (now : Nat)
deriving DecidableEq, Repr

/-- Effect of one call on the camera, with the notifications it sends; `map`
is the map as it is at the time of the call. -/
def call (ops : MovementOps) (map : Map) (c : Call) (cam : Camera) :
    Option (Camera × List Notification) :=
  match c with
  | Call.update now => update ops map now cam
  | Call.move target_x target_y => some (move map cam target_x target_y, [])
  | Call.move_entity center_x center_y =>
    some (move_entity map cam center_x center_y, [])
  | Call.restore => some (restore map cam, [])
  | Call.set_speed speed => some (set_speed cam speed, [])
  | Call.traverse_separator separator now =>
    some ((traverse_separator map separator now cam).1, [])

/-- A sequence of calls, each with the map as it is at that time (the hero
may move between two calls); the notifications are collected in order. -/
def run_calls (ops : MovementOps) :
    List (Map × Call) → Camera → Option (Camera × List Notification)
  | [], cam => some (cam, [])
  | (map, c) :: rest, cam =>
    match call ops map c cam with
    | none => none
    | some (cam1, log1) =>
      match run_calls ops rest cam1 with
      | none => none
      | some (cam2, log2) => some (cam2, log1 ++ log2)

/-- The frames of a sequence of `update` calls, as calls. -/
def update_calls (frames : List (Map × Nat)) : List (Map × Call) :=
  frames.map (fun f => (f.1, Call.update f.2))

/-- Precondition of a call used to restrict the sequences of calls:
`traverse_separator` is called in the fixed-on-hero mode only, and `move`,
`move(entity)` and `restore` are called only while no separator is being
traversed. -/
def call_allowed (c : Call) (cam : Camera) : Bool :=
  match c with
  | Call.traverse_separator _ _ => cam.fixed_on_hero
  | Call.move _ _ => cam.separator_next_scrolling_date == 0
  | Call.move_entity _ _ => cam.separator_next_scrolling_date == 0
  | Call.restore => cam.separator_next_scrolling_date == 0
  | Call.update _ => true
  | Call.set_speed _ => true

/-- Every call of the sequence satisfies `call_allowed` in the state in which
it is made. -/
def calls_allowed (ops : MovementOps) : List (Map × Call) → Camera → Bool
  | [], _ => true
  | (map, c) :: rest, cam =>
    call_allowed c cam
      && (match call ops map c cam with
          | none => true
          | some (cam1, _) => calls_allowed ops rest cam1)

/-- Number of iterations of the catch-up loop (lines 199-210) made by
`scroll_loop` with the same arguments. -/
def scroll_loop_iterations : Nat → Nat → Camera → Nat
  | 0, _, _ => 0
  | fuel + 1, now, cam =>
    if cam.separator_next_scrolling_date ≠ 0
        ∧ now ≥ cam.separator_next_scrolling_date then
      1 + scroll_loop_iterations fuel now (scroll_step cam)
    else 0

/-- A separator with `x` and `y`, and `width` and `height`, exchanged: a
vertical separator becomes horizontal and conversely. -/
def transpose_separator (s : Separator) : Separator :=
  { vertical := !s.vertical
    x := s.y
    y := s.x
    width := s.height
    height := s.width
    center_x := s.center_y
    center_y := s.center_x }

/-- The position assigned by `update_moving` (lines 249-251 and 267) for the
movement `m`. -/
def seek_position (ops : MovementOps) (cam : Camera) (m : TargetMovement) : Rectangle :=
  cam.position.set_xy ((ops.update m).x - Int.tdiv cam.get_width 2)
    ((ops.update m).y - Int.tdiv cam.get_height 2)

/-- The state of the first loop with the two axes exchanged. -/
def transpose_scan (sc : Scan) : Scan :=
  { adjusted_x := sc.adjusted_y
    adjusted_y := sc.adjusted_x
    applied_separators := sc.applied_separators.map transpose_separator }

/-- No traversal is in progress, or the target of the traversal is `r ≥ 1`
steps ahead of the scrolling position. -/
def target_ahead (cam : Camera) : Prop :=
  cam.separator_next_scrolling_date = 0
  ∨ ∃ r : Nat, 1 ≤ r ∧ cam.separator_target_position
      = cam.separator_scrolling_position.add_xy
          (r * cam.separator_scrolling_dx) (r * cam.separator_scrolling_dy)

/-- The active separators of the same orientation have the same line. -/
def same_lines (w h x y : Int) (l : List Separator) : Prop :=
  ∀ s ∈ l, ∀ t ∈ l, separator_active w h x y s → separator_active w h x y t →
    (s.is_vertical = true → t.is_vertical = true → s.x = t.x)
    ∧ (s.is_vertical = false → t.is_vertical = false → s.y = t.y)

/-! ## Helper lemmas -/

theorem scroll_step_position (cam : Camera) :
    (scroll_step cam).position = cam.position := rfl

theorem scroll_step_fixed_on_hero (cam : Camera) :
    (scroll_step cam).fixed_on_hero = cam.fixed_on_hero := rfl

theorem scroll_loop_position (fuel now : Nat) (cam : Camera) :
    (scroll_loop fuel now cam).position = cam.position := by
  induction fuel generalizing cam with
  | zero => rfl
  | succ n ih =>
    simp only [scroll_loop]
    split
    · rw [ih, scroll_step_position]
    · rfl

theorem scroll_loop_fixed_on_hero (fuel now : Nat) (cam : Camera) :
    (scroll_loop fuel now cam).fixed_on_hero = cam.fixed_on_hero := by
  induction fuel generalizing cam with
  | zero => rfl
  | succ n ih =>
    simp only [scroll_loop]
    split
    · rw [ih, scroll_step_fixed_on_hero]
    · rfl

/-- A loop entered with a date of zero does nothing. -/
theorem scroll_loop_of_date_zero (fuel now : Nat) (cam : Camera)
    (h : cam.separator_next_scrolling_date = 0) : scroll_loop fuel now cam = cam := by
  cases fuel with
  | zero => rfl
  | succ n => simp [scroll_loop, h]

/-- The fuel given by `update_fixed_on_hero` is enough: when the modelled loop
stops, the condition of the `while` is false. -/
theorem scroll_loop_exit (fuel now : Nat) (cam : Camera) (hnow : now < UINT32_SIZE)
    (hfuel : cam.separator_next_scrolling_date = 0
      ∨ now + 1 - cam.separator_next_scrolling_date ≤ fuel) :
    ¬ ((scroll_loop fuel now cam).separator_next_scrolling_date ≠ 0
      ∧ now ≥ (scroll_loop fuel now cam).separator_next_scrolling_date) := by
  induction fuel generalizing cam with
  | zero =>
    simp only [scroll_loop]
    rcases hfuel with h | h
    · simp [h]
    · omega
  | succ n ih =>
    simp only [scroll_loop]
    split
    · rename_i hc
      apply ih
      simp only [scroll_step]
      split
      · exact Or.inl rfl
      · rcases hfuel with h | h
        · exact absurd h hc.1
        · simp only [UINT32_SIZE] at hnow ⊢
          omega
    · assumption

theorem clamp_to_map_bounds (map_size size v : Int) (h : size ≤ map_size) :
    0 ≤ clamp_to_map map_size size v ∧ clamp_to_map map_size size v ≤ map_size - size := by
  unfold clamp_to_map
  rw [if_neg (by omega)]
  omega

theorem first_scan_step_inactive (w h x y : Int) (st : Scan) (s : Separator)
    (hs : ¬ separator_active w h x y s) : first_scan_step w h x y st s = st := by
  unfold separator_active at hs
  unfold first_scan_step
  by_cases hv : s.is_vertical = true
  · rw [if_pos hv] at hs
    simp only [hv, if_true]
    rw [if_neg hs]
  · rw [if_neg hv] at hs
    simp only [hv]
    rw [if_neg hs]
    rfl

theorem foldl_first_scan_inactive (w h x y : Int) (l : List Separator) (st : Scan)
    (hl : ∀ s ∈ l, ¬ separator_active w h x y s) :
    l.foldl (first_scan_step w h x y) st = st := by
  induction l generalizing st with
  | nil => rfl
  | cons s l ih =>
    rw [List.foldl_cons, first_scan_step_inactive w h x y st s (hl s (List.mem_cons_self s l))]
    exact ih st (fun t ht => hl t (List.mem_cons_of_mem s ht))

theorem resolve_separators_inactive (w h x y : Int) (l : List Separator)
    (hl : ∀ s ∈ l, ¬ separator_active w h x y s) :
    resolve_separators w h x y l = (x, y) := by
  simp [resolve_separators, first_scan, foldl_first_scan_inactive w h x y l _ hl, must_adjust]

theorem first_scan_step_vertical_active (w h x y : Int) (st : Scan) (s : Separator)
    (hv : s.is_vertical = true) (hs : separator_active w h x y s) :
    first_scan_step w h x y st s =
      { st with
        adjusted_x :=
          if s.x + 8 - x > x + w - (s.x + 8) then s.x + 8 - w else s.x + 8
        applied_separators := st.applied_separators ++ [s] } := by
  unfold separator_active at hs
  rw [if_pos hv] at hs
  unfold first_scan_step
  simp only [hv, if_true]
  rw [if_pos hs]
  rfl

theorem first_scan_step_horizontal_active (w h x y : Int) (st : Scan) (s : Separator)
    (hv : s.is_vertical = false) (hs : separator_active w h x y s) :
    first_scan_step w h x y st s =
      { st with
        adjusted_y :=
          if s.y + 8 - y > y + h - (s.y + 8) then s.y + 8 - h else s.y + 8
        applied_separators := st.applied_separators ++ [s] } := by
  unfold separator_active at hs
  simp only [hv, Bool.false_eq_true, if_false] at hs
  unfold first_scan_step
  simp only [hv, Bool.false_eq_true, if_false]
  rw [if_pos hs]
  rfl

/-- The separators recorded by the first loop are the active ones, in the
order of the registry. -/
theorem foldl_first_scan_applied (w h x y : Int) (l : List Separator) (st : Scan) :
    (l.foldl (first_scan_step w h x y) st).applied_separators
      = st.applied_separators ++ l.filter (fun s => decide (separator_active w h x y s)) := by
  induction l generalizing st with
  | nil => simp
  | cons s l ih =>
    rw [List.foldl_cons, ih]
    by_cases hs : separator_active w h x y s
    · cases hv : s.is_vertical
      · rw [first_scan_step_horizontal_active w h x y st s hv hs]
        simp [hs]
      · rw [first_scan_step_vertical_active w h x y st s hv hs]
        simp [hs]
    · rw [first_scan_step_inactive w h x y st s hs]
      simp [hs]

theorem foldl_second_scan_fst (w h x y ax ay : Int) (l : List Separator) (st : Bool × Bool) :
    (l.foldl (second_scan_step w h x y ax ay) st).1 = true
      ↔ st.1 = true ∨ ∃ s ∈ l, still_intersects_x w h x ay s := by
  induction l generalizing st with
  | nil => simp
  | cons s l ih =>
    rw [List.foldl_cons, ih]
    simp only [List.mem_cons, exists_eq_or_imp]
    unfold second_scan_step still_intersects_x
    cases hv : s.is_vertical
    · simp only [Bool.false_eq_true, if_false, false_and, false_or]
      split <;> rfl
    · simp only [if_true, true_and]
      split
      · rename_i hc
        simp [hc]
      · rename_i hc
        simp [hc]

theorem foldl_second_scan_snd (w h x y ax ay : Int) (l : List Separator) (st : Bool × Bool) :
    (l.foldl (second_scan_step w h x y ax ay) st).2 = true
      ↔ st.2 = true ∨ ∃ s ∈ l, still_intersects_y w h y ax s := by
  induction l generalizing st with
  | nil => simp
  | cons s l ih =>
    rw [List.foldl_cons, ih]
    simp only [List.mem_cons, exists_eq_or_imp]
    unfold second_scan_step still_intersects_y
    cases hv : s.is_vertical
    · simp only [Bool.false_eq_true, if_false, true_and]
      split
      · rename_i hc
        simp [hc]
      · rename_i hc
        simp [hc]
    · simp only [if_true, Bool.true_eq_false, false_and, false_or]
      split <;> rfl

/-- An active vertical separator moves `adjusted_x` away from the raw `x`. -/
theorem snap_x_ne (w h x y : Int) (s : Separator)
    (hv : s.is_vertical = true) (hs : separator_active w h x y s) :
    (if s.x + 8 - x > x + w - (s.x + 8) then s.x + 8 - w else s.x + 8) ≠ x := by
  unfold separator_active at hs
  rw [if_pos hv] at hs
  simp only [Separator.get_x] at hs
  split <;> omega

/-- An active horizontal separator moves `adjusted_y` away from the raw `y`. -/
theorem snap_y_ne (w h x y : Int) (s : Separator)
    (hv : s.is_vertical = false) (hs : separator_active w h x y s) :
    (if s.y + 8 - y > y + h - (s.y + 8) then s.y + 8 - h else s.y + 8) ≠ y := by
  unfold separator_active at hs
  simp only [hv, Bool.false_eq_true, if_false, Separator.get_y] at hs
  split <;> omega

theorem foldl_first_scan_adjusted_x_ne (w h x y : Int) (l : List Separator) (st : Scan)
    (hst : st.adjusted_x ≠ x
      ∨ ∃ s ∈ l, s.is_vertical = true ∧ separator_active w h x y s) :
    (l.foldl (first_scan_step w h x y) st).adjusted_x ≠ x := by
  induction l generalizing st with
  | nil =>
    rcases hst with h1 | ⟨s, hs, _⟩
    · exact h1
    · cases hs
  | cons t l ih =>
    rw [List.foldl_cons]
    apply ih
    by_cases ht : separator_active w h x y t
    · cases hv : t.is_vertical
      · rw [first_scan_step_horizontal_active w h x y st t hv ht]
        rcases hst with h1 | ⟨s, hs, hsv, hsa⟩
        · exact Or.inl h1
        · rcases List.mem_cons.mp hs with rfl | hs
          · rw [hv] at hsv
            cases hsv
          · exact Or.inr ⟨s, hs, hsv, hsa⟩
      · rw [first_scan_step_vertical_active w h x y st t hv ht]
        exact Or.inl (snap_x_ne w h x y t hv ht)
    · rw [first_scan_step_inactive w h x y st t ht]
      rcases hst with h1 | ⟨s, hs, hsv, hsa⟩
      · exact Or.inl h1
      · rcases List.mem_cons.mp hs with rfl | hs
        · exact absurd hsa ht
        · exact Or.inr ⟨s, hs, hsv, hsa⟩

theorem foldl_first_scan_adjusted_y_ne (w h x y : Int) (l : List Separator) (st : Scan)
    (hst : st.adjusted_y ≠ y
      ∨ ∃ s ∈ l, s.is_vertical = false ∧ separator_active w h x y s) :
    (l.foldl (first_scan_step w h x y) st).adjusted_y ≠ y := by
  induction l generalizing st with
  | nil =>
    rcases hst with h1 | ⟨s, hs, _⟩
    · exact h1
    · cases hs
  | cons t l ih =>
    rw [List.foldl_cons]
    apply ih
    by_cases ht : separator_active w h x y t
    · cases hv : t.is_vertical
      · rw [first_scan_step_horizontal_active w h x y st t hv ht]
        exact Or.inl (snap_y_ne w h x y t hv ht)
      · rw [first_scan_step_vertical_active w h x y st t hv ht]
        rcases hst with h1 | ⟨s, hs, hsv, hsa⟩
        · exact Or.inl h1
        · rcases List.mem_cons.mp hs with rfl | hs
          · rw [hv] at hsv
            cases hsv
          · exact Or.inr ⟨s, hs, hsv, hsa⟩
    · rw [first_scan_step_inactive w h x y st t ht]
      rcases hst with h1 | ⟨s, hs, hsv, hsa⟩
      · exact Or.inl h1
      · rcases List.mem_cons.mp hs with rfl | hs
        · exact absurd hsa ht
        · exact Or.inr ⟨s, hs, hsv, hsa⟩

/-- The applied separators of the first loop. -/
theorem first_scan_applied (w h x y : Int) (l : List Separator) :
    (first_scan w h x y l).applied_separators
      = l.filter (fun s => decide (separator_active w h x y s)) := by
  simp [first_scan, foldl_first_scan_applied]

/-- When both axes were adjusted, the adjustment of `y` is kept exactly when
an applied separator satisfies the test of lines 180-182. -/
theorem must_adjust_snd (w h x y : Int) (l : List Separator)
    (hx : (first_scan w h x y l).adjusted_x ≠ x)
    (hy : (first_scan w h x y l).adjusted_y ≠ y) :
    (must_adjust w h x y (first_scan w h x y l)).2 = true
      ↔ ∃ s ∈ (first_scan w h x y l).applied_separators,
          still_intersects_y w h y (first_scan w h x y l).adjusted_x s := by
  unfold must_adjust
  rw [if_pos ⟨hx, hy⟩, foldl_second_scan_snd]
  simp

/-- When both axes were adjusted, the adjustment of `x` is kept exactly when
an applied separator satisfies the test of lines 170-172. -/
theorem must_adjust_fst (w h x y : Int) (l : List Separator)
    (hx : (first_scan w h x y l).adjusted_x ≠ x)
    (hy : (first_scan w h x y l).adjusted_y ≠ y) :
    (must_adjust w h x y (first_scan w h x y l)).1 = true
      ↔ ∃ s ∈ (first_scan w h x y l).applied_separators,
          still_intersects_x w h x (first_scan w h x y l).adjusted_y s := by
  unfold must_adjust
  rw [if_pos ⟨hx, hy⟩, foldl_second_scan_fst]
  simp

theorem add_xy_eq_iff (p : Rectangle) (a b c d : Int) :
    p.add_xy a b = p.add_xy c d ↔ a = c ∧ b = d := by
  cases p
  simp [Rectangle.add_xy]

/-- One step of the catch-up loop during a traversal. -/
theorem traversing_scroll_step (p : Rectangle) (dx dy : Int) (t0 n k : Nat) (cam : Camera)
    (hunit : dx = 1 ∨ dx = -1 ∨ dy = 1 ∨ dy = -1)
    (hn : t0 + n < UINT32_SIZE)
    (h : Traversing p dx dy t0 n k cam) (hk : k < n) :
    Traversing p dx dy t0 n (k + 1) (scroll_step cam) := by
  obtain ⟨hfix, hdx, hdy, htarget, hpos, hdate⟩ := h
  have hdate' : cam.separator_next_scrolling_date = t0 + k := by
    rcases hdate with ⟨h1, _⟩ | ⟨_, h2⟩
    · omega
    · exact h2
  have hpos' : cam.separator_scrolling_position.add_xy
      cam.separator_scrolling_dx cam.separator_scrolling_dy
      = p.add_xy (((k + 1 : Nat) : Int) * dx) (((k + 1 : Nat) : Int) * dy) := by
    rw [hpos, hdx, hdy]
    cases p
    simp only [Rectangle.add_xy, Rectangle.mk.injEq, and_true]
    constructor <;> push_cast <;> ring
  have hiff : (p.add_xy (((k + 1 : Nat) : Int) * dx) (((k + 1 : Nat) : Int) * dy)
      = p.add_xy ((n : Int) * dx) ((n : Int) * dy)) ↔ k + 1 = n := by
    rw [add_xy_eq_iff]
    constructor
    · rintro ⟨h1, h2⟩
      rcases hunit with hu | hu | hu | hu
      · rw [hu] at h1
        push_cast at h1
        omega
      · rw [hu] at h1
        push_cast at h1
        omega
      · rw [hu] at h2
        push_cast at h2
        omega
      · rw [hu] at h2
        push_cast at h2
        omega
    · intro he
      rw [he]
      exact ⟨rfl, rfl⟩
  refine ⟨hfix, hdx, hdy, htarget, hpos', ?_⟩
  simp only [scroll_step, Rectangle.equals, hpos', htarget, hdate', decide_eq_true_eq, hiff]
  by_cases he : k + 1 = n
  · exact Or.inl ⟨he, if_pos he⟩
  · refine Or.inr ⟨by omega, ?_⟩
    rw [if_neg he]
    simp only [UINT32_SIZE] at hn ⊢
    omega

/-- The catch-up loop during a traversal: at the clock value `t` the camera
has done `min (t + 1 - t0) n` steps. -/
theorem traversing_scroll_loop (p : Rectangle) (dx dy : Int) (t0 n t : Nat)
    (hunit : dx = 1 ∨ dx = -1 ∨ dy = 1 ∨ dy = -1)
    (ht0 : 0 < t0) (hn : t0 + n < UINT32_SIZE)
    (fuel k : Nat) (cam : Camera)
    (h : Traversing p dx dy t0 n k cam) (hk : k < n)
    (hle : t0 + k ≤ t + 1) (hfuel : t + 1 - (t0 + k) ≤ fuel) :
    Traversing p dx dy t0 n (min (t + 1 - t0) n) (scroll_loop fuel t cam) := by
  induction fuel generalizing k cam with
  | zero =>
    have : min (t + 1 - t0) n = k := by omega
    rw [this]
    exact h
  | succ f ih =>
    have hdate : cam.separator_next_scrolling_date = t0 + k := by
      rcases h.2.2.2.2.2 with ⟨h1, _⟩ | ⟨_, h2⟩
      · omega
      · exact h2
    simp only [scroll_loop, hdate]
    by_cases hc : t0 + k ≠ 0 ∧ t ≥ t0 + k
    · rw [if_pos hc]
      have hstep := traversing_scroll_step p dx dy t0 n k cam hunit hn h hk
      by_cases he : k + 1 = n
      · have hz : (scroll_step cam).separator_next_scrolling_date = 0 := by
          rcases hstep.2.2.2.2.2 with ⟨_, h2⟩ | ⟨h1, _⟩
          · exact h2
          · omega
        rw [scroll_loop_of_date_zero f t _ hz]
        have : min (t + 1 - t0) n = k + 1 := by omega
        rw [this]
        exact hstep
      · exact ih (k + 1) (scroll_step cam) hstep (by omega) (by omega) (by omega)
    · rw [if_neg hc]
      have : min (t + 1 - t0) n = k := by omega
      rw [this]
      exact h

/-- One call of `update` during (or after) a traversal. -/
theorem traversing_update (ops : MovementOps) (map : Map) (p : Rectangle) (dx dy : Int)
    (t0 n tp t : Nat) (cam : Camera)
    (hunit : dx = 1 ∨ dx = -1 ∨ dy = 1 ∨ dy = -1)
    (ht0 : 0 < t0) (hn : t0 + n < UINT32_SIZE) (ht : t < UINT32_SIZE)
    (htp : tp ≤ t) (htp0 : t0 ≤ tp + 1)
    (h : Traversing p dx dy t0 n (min (tp + 1 - t0) n) cam) :
    ∃ cam', update ops map t cam = some (cam', [])
      ∧ Traversing p dx dy t0 n (min (t + 1 - t0) n) cam' := by
  have hfix := h.1
  refine ⟨_, by simp only [update, update_fixed_on_hero, hfix, if_true, Option.map]; rfl, ?_⟩
  by_cases hd : cam.separator_next_scrolling_date = 0
  · rw [if_pos hd]
    have hk : min (tp + 1 - t0) n = n := by
      rcases h.2.2.2.2.2 with ⟨h1, _⟩ | ⟨_, h2⟩
      · exact h1
      · omega
    have hk' : min (t + 1 - t0) n = n := by omega
    rw [hk] at h
    rw [hk']
    exact h
  · rw [if_neg hd]
    have hk : min (tp + 1 - t0) n < n
        ∧ cam.separator_next_scrolling_date = t0 + min (tp + 1 - t0) n := by
      rcases h.2.2.2.2.2 with ⟨_, h2⟩ | h2
      · exact absurd h2 hd
      · exact h2
    have hmod : t % UINT32_SIZE = t := Nat.mod_eq_of_lt ht
    rw [hmod]
    have hloop := traversing_scroll_loop p dx dy t0 n t hunit ht0 hn
      (t + 1 - cam.separator_next_scrolling_date) (min (tp + 1 - t0) n) cam h hk.1
      (by omega) (by rw [hk.2])
    exact hloop

/-- A sequence of calls of `update` at non-decreasing clock values during (or
after) a traversal. -/
theorem traversing_run_updates (ops : MovementOps) (p : Rectangle) (dx dy : Int)
    (t0 n : Nat) (hunit : dx = 1 ∨ dx = -1 ∨ dy = 1 ∨ dy = -1)
    (ht0 : 0 < t0) (hn : t0 + n < UINT32_SIZE) (mapt : Map) (t : Nat)
    (frames : List (Map × Nat)) (tp : Nat) (cam : Camera)
    (htp0 : t0 ≤ tp + 1)
    (h : Traversing p dx dy t0 n (min (tp + 1 - t0) n) cam)
    (hmono : List.Chain (fun a b => a ≤ b) tp (frames.map Prod.snd ++ [t]))
    (hclock : ∀ f ∈ frames ++ [(mapt, t)], f.2 < UINT32_SIZE) :
    ∃ cam', run_updates ops (frames ++ [(mapt, t)]) cam = some cam'
      ∧ Traversing p dx dy t0 n (min (t + 1 - t0) n) cam' := by
  induction frames generalizing tp cam with
  | nil =>
    simp only [List.map_nil, List.nil_append, List.chain_cons] at hmono
    obtain ⟨cam', hu, hT⟩ := traversing_update ops mapt p dx dy t0 n tp t cam hunit ht0 hn
      (hclock (mapt, t) (by simp)) hmono.1 htp0 h
    exact ⟨cam', by simp [run_updates, hu], hT⟩
  | cons f frames ih =>
    obtain ⟨m, b⟩ := f
    simp only [List.map_cons, List.cons_append, List.chain_cons] at hmono
    obtain ⟨cam1, hu, hT⟩ := traversing_update ops m p dx dy t0 n tp b cam hunit ht0 hn
      (hclock (m, b) (by simp)) hmono.1 htp0 h
    obtain ⟨cam', hr, hT'⟩ := ih b cam1 (by omega) hT hmono.2
      (fun f hf => hclock f (List.mem_cons_of_mem _ hf))
    exact ⟨cam', by simp [run_updates, hu, hr], hT'⟩

/-- The state right after `traverse_separator` at a tick `t0` is the start of
a traversal of `scroll_dimension` steps. -/
theorem traversing_start (map : Map) (sep : Separator) (t0 n : Nat) (cam : Camera)
    (hfix : cam.fixed_on_hero = true) (hd : scroll_dimension sep cam = (n : Int))
    (hn : 0 < n) (ht0 : t0 < UINT32_SIZE) :
    Traversing cam.position (traverse_separator map sep t0 cam).1.separator_scrolling_dx
      (traverse_separator map sep t0 cam).1.separator_scrolling_dy t0 n 0
      (traverse_separator map sep t0 cam).1
    ∧ ((traverse_separator map sep t0 cam).1.separator_scrolling_dx = 1
      ∨ (traverse_separator map sep t0 cam).1.separator_scrolling_dx = -1
      ∨ (traverse_separator map sep t0 cam).1.separator_scrolling_dy = 1
      ∨ (traverse_separator map sep t0 cam).1.separator_scrolling_dy = -1) := by
  have hmod : t0 % UINT32_SIZE = t0 := Nat.mod_eq_of_lt ht0
  have hp : cam.position.add_xy (((0 : Nat) : Int) * (traverse_separator map sep t0 cam).1.separator_scrolling_dx)
      (((0 : Nat) : Int) * (traverse_separator map sep t0 cam).1.separator_scrolling_dy)
      = cam.position := by
    simp [Rectangle.add_xy]
  unfold Traversing
  rw [hp]
  unfold scroll_dimension at hd
  refine ⟨⟨hfix, rfl, rfl, ?_, rfl, ?_⟩, ?_⟩
  · simp only [traverse_separator, get_height, get_width, Rectangle.get_height,
      Rectangle.get_width] at hd ⊢
    cases hh : sep.is_horizontal <;> simp only [hh, if_true, if_false, Bool.false_eq_true] at hd ⊢
    · split <;> simp [Rectangle.add_x, Rectangle.add_xy, hd]
    · split <;> simp [Rectangle.add_y, Rectangle.add_xy, hd]
  · have hdate : (traverse_separator map sep t0 cam).1.separator_next_scrolling_date = t0 :=
      hmod
    exact Or.inr ⟨hn, by rw [hdate]; rfl⟩
  · simp only [traverse_separator]
    cases hh : sep.is_horizontal <;> simp only [if_true, if_false, Bool.false_eq_true]
    · split <;> simp
    · split <;> simp

/-- The position assigned by `update_moving` when there is a movement. -/
theorem update_moving_position (ops : MovementOps) (cam : Camera) (m : TargetMovement)
    (hfix : cam.fixed_on_hero = false) (hm : cam.movement = some m) :
    ∃ r, update_moving ops cam = some r
      ∧ r.1.position = ⟨(ops.update m).x - Int.tdiv cam.position.width 2,
          (ops.update m).y - Int.tdiv cam.position.height 2,
          cam.position.width, cam.position.height⟩ := by
  refine ⟨_, by simp only [update_moving, hfix, hm, Bool.not_false, if_true]; rfl, ?_⟩
  simp only [get_width, get_height, Rectangle.get_width, Rectangle.get_height,
    Rectangle.set_xy]
  cases ops.is_finished (ops.update m) <;> cases cam.restoring <;> rfl

/-- The catch-up loop writes the scrolling position and the next scrolling
date only. -/
theorem scroll_loop_frame (fuel now : Nat) (cam : Camera) :
    ∃ pos date, scroll_loop fuel now cam
      = { cam with separator_scrolling_position := pos
                   separator_next_scrolling_date := date } := by
  induction fuel generalizing cam with
  | zero => exact ⟨cam.separator_scrolling_position, cam.separator_next_scrolling_date, rfl⟩
  | succ n ih =>
    simp only [scroll_loop]
    split
    · obtain ⟨pos, date, h⟩ := ih (scroll_step cam)
      exact ⟨pos, date, by rw [h]; rfl⟩
    · exact ⟨cam.separator_scrolling_position, cam.separator_next_scrolling_date, rfl⟩

/-- What `update` does in the fixed-on-hero mode: no notification, and only
the corner of the position and the scrolling position and date may change. -/
theorem update_fixed (ops : MovementOps) (map : Map) (now : Nat) (cam : Camera)
    (hfix : cam.fixed_on_hero = true) :
    ∃ c, update ops map now cam = some (c, [])
      ∧ update_fixed_on_hero map now cam = some c
      ∧ c.fixed_on_hero = true ∧ c.movement = cam.movement
      ∧ c.restoring = cam.restoring ∧ c.speed = cam.speed
      ∧ c.position.width = cam.position.width
      ∧ c.position.height = cam.position.height
      ∧ c.separator_scrolling_dx = cam.separator_scrolling_dx
      ∧ c.separator_scrolling_dy = cam.separator_scrolling_dy
      ∧ c.separator_target_position = cam.separator_target_position := by
  refine ⟨_, by simp only [update, update_fixed_on_hero, hfix, if_true, Option.map]; rfl,
    by simp only [update_fixed_on_hero, hfix, if_true], ?_⟩
  by_cases hd : cam.separator_next_scrolling_date = 0
  · rw [if_pos hd]
    exact ⟨hfix, rfl, rfl, rfl, rfl, rfl, rfl, rfl, rfl⟩
  · rw [if_neg hd]
    obtain ⟨pos, date, h⟩ := scroll_loop_frame
      (now % UINT32_SIZE + 1 - cam.separator_next_scrolling_date) (now % UINT32_SIZE) cam
    rw [h]
    exact ⟨hfix, rfl, rfl, rfl, rfl, rfl, rfl, rfl, rfl⟩

/-- `update` does nothing when the camera is not fixed on the hero and has no
movement. -/
theorem update_idle (ops : MovementOps) (map : Map) (now : Nat) (cam : Camera)
    (hfix : cam.fixed_on_hero = false) (hm : cam.movement = none) :
    update ops map now cam = some (cam, []) := by
  simp [update, hfix, hm]

/-- What `update` does when the camera has a movement and is not fixed on the
hero. -/
theorem update_seek (ops : MovementOps) (map : Map) (now : Nat) (cam : Camera)
    (m : TargetMovement) (hfix : cam.fixed_on_hero = false) (hm : cam.movement = some m) :
    update ops map now cam = some
      (if ops.is_finished (ops.update m) = true then
        if cam.restoring = true then
          ({ cam with movement := none, restoring := false, fixed_on_hero := true,
                      position := seek_position ops cam m },
            [Notification.map_on_camera_back])
        else
          ({ cam with movement := none, position := seek_position ops cam m },
            [Notification.notify_camera_reached_target])
      else
        ({ cam with movement := some (ops.update m), position := seek_position ops cam m },
          [])) := by
  simp only [update, hfix, hm, update_moving, seek_position, Bool.false_eq_true, if_false,
    Bool.not_false, if_true, ne_eq, not_false_eq_true, reduceCtorEq]
  cases ops.is_finished (ops.update m) <;> cases cam.restoring <;> rfl

/-- `update` always returns. -/
theorem update_total (ops : MovementOps) (map : Map) (now : Nat) (cam : Camera) :
    ∃ r, update ops map now cam = some r := by
  cases hfix : cam.fixed_on_hero
  · cases hm : cam.movement with
    | none => exact ⟨_, update_idle ops map now cam hfix hm⟩
    | some m => exact ⟨_, update_seek ops map now cam m hfix hm⟩
  · obtain ⟨c, h, _⟩ := update_fixed ops map now cam hfix
    exact ⟨_, h⟩

/-- Every call returns. -/
theorem call_total (ops : MovementOps) (map : Map) (c : Call) (cam : Camera) :
    ∃ r, call ops map c cam = some r := by
  cases c with
  | update now => exact update_total ops map now cam
  | move x y => exact ⟨_, rfl⟩
  | move_entity x y => exact ⟨_, rfl⟩
  | restore => exact ⟨_, rfl⟩
  | set_speed v => exact ⟨_, rfl⟩
  | traverse_separator sep now => exact ⟨_, rfl⟩

/-- A property kept by every call holds after every sequence of calls, which
always returns. -/
theorem run_calls_invariant (ops : MovementOps) (P : Camera → Prop)
    (hstep : ∀ map c cam r, P cam → call ops map c cam = some r → P r.1)
    (calls : List (Map × Call)) (cam : Camera) (h : P cam) :
    ∃ r, run_calls ops calls cam = some r ∧ P r.1 := by
  induction calls generalizing cam with
  | nil => exact ⟨(cam, []), rfl, h⟩
  | cons mc rest ih =>
    obtain ⟨map, c⟩ := mc
    obtain ⟨⟨cam1, log1⟩, h1⟩ := call_total ops map c cam
    obtain ⟨⟨cam2, log2⟩, h2, hP⟩ := ih cam1 (hstep map c cam (cam1, log1) h h1)
    exact ⟨(cam2, log1 ++ log2), by simp [run_calls, h1, h2], hP⟩

/-- Calls of `update` in the fixed-on-hero mode send no notification and stay
in that mode. -/
theorem run_updates_fixed (ops : MovementOps) (frames : List (Map × Nat)) (cam : Camera)
    (hfix : cam.fixed_on_hero = true) :
    ∃ c, run_calls ops (update_calls frames) cam = some (c, [])
      ∧ c.fixed_on_hero = true := by
  induction frames generalizing cam with
  | nil => exact ⟨cam, rfl, hfix⟩
  | cons f frames ih =>
    obtain ⟨c1, h1, _, hfix1, _⟩ := update_fixed ops f.1 f.2 cam hfix
    obtain ⟨c2, h2, hfix2⟩ := ih c1 hfix1
    refine ⟨c2, ?_, hfix2⟩
    simp only [update_calls, List.map_cons, run_calls, call, h1] at h2 ⊢
    rw [h2]
    rfl

/-- Calls of `update` on a camera that is not fixed on the hero and has no
movement change nothing and send no notification. -/
theorem run_updates_idle (ops : MovementOps) (frames : List (Map × Nat)) (cam : Camera)
    (hfix : cam.fixed_on_hero = false) (hm : cam.movement = none) :
    run_calls ops (update_calls frames) cam = some (cam, []) := by
  induction frames with
  | nil => rfl
  | cons f frames ih =>
    simp only [update_calls, List.map_cons, run_calls, call,
      update_idle ops f.1 f.2 cam hfix hm] at ih ⊢
    rw [ih]
    rfl

/-- Calls of `update` during a restoring seek send nothing, or
`map_on_camera_back` once. -/
theorem run_updates_restoring (ops : MovementOps) (frames : List (Map × Nat)) (cam : Camera)
    (m : TargetMovement)
    (hfix : cam.fixed_on_hero = false) (hr : cam.restoring = true)
    (hm : cam.movement = some m) :
    ∃ r, run_calls ops (update_calls frames) cam = some r
      ∧ (r.2 = [] ∨ r.2 = [Notification.map_on_camera_back]) := by
  induction frames generalizing cam m with
  | nil => exact ⟨(cam, []), rfl, Or.inl rfl⟩
  | cons f frames ih =>
    have h := update_seek ops f.1 f.2 cam m hfix hm
    rw [if_pos hr] at h
    by_cases hf : ops.is_finished (ops.update m) = true
    · rw [if_pos hf] at h
      obtain ⟨c2, h2, _⟩ := run_updates_fixed ops frames
        { cam with movement := none, restoring := false, fixed_on_hero := true,
                   position := seek_position ops cam m } rfl
      refine ⟨(c2, [Notification.map_on_camera_back]), ?_, Or.inr rfl⟩
      simp only [update_calls, List.map_cons, run_calls, call, h] at h2 ⊢
      rw [h2]
      rfl
    · rw [if_neg hf] at h
      obtain ⟨r, h2, hlog⟩ := ih
        { cam with movement := some (ops.update m), position := seek_position ops cam m }
        (ops.update m) hfix hr rfl
      refine ⟨r, ?_, hlog⟩
      simp only [update_calls, List.map_cons, run_calls, call, h] at h2 ⊢
      rw [h2]
      simp

/-- A property kept by every call made when `call_allowed` holds is true
after every sequence of allowed calls, which always returns. -/
theorem run_calls_allowed_invariant (ops : MovementOps) (P : Camera → Prop)
    (hstep : ∀ map c cam r, P cam → call_allowed c cam = true →
      call ops map c cam = some r → P r.1)
    (calls : List (Map × Call)) (cam : Camera) (h : P cam)
    (hall : calls_allowed ops calls cam = true) :
    ∃ r, run_calls ops calls cam = some r ∧ P r.1 := by
  induction calls generalizing cam with
  | nil => exact ⟨(cam, []), rfl, h⟩
  | cons mc rest ih =>
    obtain ⟨map, c⟩ := mc
    obtain ⟨⟨cam1, log1⟩, h1⟩ := call_total ops map c cam
    simp only [calls_allowed, h1, Bool.and_eq_true] at hall
    obtain ⟨⟨cam2, log2⟩, h2, hP⟩ := ih cam1 (hstep map c cam (cam1, log1) h hall.1 h1) hall.2
    exact ⟨(cam2, log1 ++ log2), by simp [run_calls, h1, h2], hP⟩

theorem first_scan_step_transpose (w h x y : Int) (st : Scan) (s : Separator) :
    first_scan_step h w y x (transpose_scan st) (transpose_separator s)
      = transpose_scan (first_scan_step w h x y st s) := by
  unfold first_scan_step
  cases hv : s.vertical
  · simp only [Separator.is_vertical, transpose_separator, hv, Bool.not_false, if_true,
      Bool.false_eq_true, if_false, Separator.get_x, Separator.get_y, Separator.get_width,
      Separator.get_height]
    split <;> simp [transpose_scan, transpose_separator, hv]
  · simp only [Separator.is_vertical, transpose_separator, hv, Bool.not_true, if_true,
      Bool.false_eq_true, if_false, Separator.get_x, Separator.get_y, Separator.get_width,
      Separator.get_height]
    split <;> simp [transpose_scan, transpose_separator, hv]

theorem foldl_first_scan_transpose (w h x y : Int) (l : List Separator) (st : Scan) :
    (l.map transpose_separator).foldl (first_scan_step h w y x) (transpose_scan st)
      = transpose_scan (l.foldl (first_scan_step w h x y) st) := by
  induction l generalizing st with
  | nil => rfl
  | cons s l ih =>
    rw [List.map_cons, List.foldl_cons, List.foldl_cons, first_scan_step_transpose, ih]

theorem first_scan_transpose (w h x y : Int) (l : List Separator) :
    first_scan h w y x (l.map transpose_separator)
      = transpose_scan (first_scan w h x y l) := by
  unfold first_scan
  exact foldl_first_scan_transpose w h x y l ⟨x, y, []⟩

theorem second_scan_step_transpose (w h x y ax ay : Int) (st : Bool × Bool) (s : Separator) :
    second_scan_step h w y x ay ax (st.2, st.1) (transpose_separator s)
      = ((second_scan_step w h x y ax ay st s).2, (second_scan_step w h x y ax ay st s).1) := by
  unfold second_scan_step
  cases hv : s.vertical
  · simp only [Separator.is_vertical, transpose_separator, hv, Bool.not_false, if_true,
      Bool.false_eq_true, if_false, Separator.get_x, Separator.get_y, Separator.get_width,
      Separator.get_height]
    split <;> rfl
  · simp only [Separator.is_vertical, transpose_separator, hv, Bool.not_true, if_true,
      Bool.false_eq_true, if_false, Separator.get_x, Separator.get_y, Separator.get_width,
      Separator.get_height]
    split <;> rfl

theorem foldl_second_scan_transpose (w h x y ax ay : Int) (l : List Separator)
    (st : Bool × Bool) :
    (l.map transpose_separator).foldl (second_scan_step h w y x ay ax) (st.2, st.1)
      = ((l.foldl (second_scan_step w h x y ax ay) st).2,
          (l.foldl (second_scan_step w h x y ax ay) st).1) := by
  induction l generalizing st with
  | nil => rfl
  | cons s l ih =>
    rw [List.map_cons, List.foldl_cons, List.foldl_cons, second_scan_step_transpose, ih]

theorem must_adjust_transpose (w h x y : Int) (sc : Scan) :
    must_adjust h w y x (transpose_scan sc)
      = ((must_adjust w h x y sc).2, (must_adjust w h x y sc).1) := by
  unfold must_adjust
  by_cases hc : sc.adjusted_x ≠ x ∧ sc.adjusted_y ≠ y
  · rw [if_pos hc, if_pos (show (transpose_scan sc).adjusted_x ≠ y
      ∧ (transpose_scan sc).adjusted_y ≠ x from ⟨hc.2, hc.1⟩)]
    exact foldl_second_scan_transpose w h x y sc.adjusted_x sc.adjusted_y
      sc.applied_separators (false, false)
  · rw [if_neg hc, if_neg (show ¬ ((transpose_scan sc).adjusted_x ≠ y
      ∧ (transpose_scan sc).adjusted_y ≠ x) from fun h => hc ⟨h.2, h.1⟩)]

/-- No iteration when the condition of the `while` is false at the start. -/
theorem scroll_loop_iterations_of_exit (fuel now : Nat) (cam : Camera)
    (h : cam.separator_next_scrolling_date = 0 ∨ now < cam.separator_next_scrolling_date) :
    scroll_loop_iterations fuel now cam = 0 := by
  cases fuel with
  | zero => rfl
  | succ n =>
    simp only [scroll_loop_iterations]
    rw [if_neg]
    omega

/-- The date after one iteration of the loop made at a clock value `now`. -/
theorem scroll_step_date (now : Nat) (cam : Camera) (hnow : now < UINT32_SIZE)
    (hc : cam.separator_next_scrolling_date ≠ 0 ∧ now ≥ cam.separator_next_scrolling_date) :
    (scroll_step cam).separator_next_scrolling_date = 0
      ∨ (scroll_step cam).separator_next_scrolling_date
          = cam.separator_next_scrolling_date + 1 := by
  simp only [scroll_step]
  split
  · exact Or.inl rfl
  · simp only [UINT32_SIZE] at hnow ⊢
    omega

/-- The loop makes at most one iteration per elapsed tick, whatever the
fuel. -/
theorem scroll_loop_iterations_le_ticks (fuel now : Nat) (cam : Camera)
    (hnow : now < UINT32_SIZE) :
    scroll_loop_iterations fuel now cam ≤ now + 1 - cam.separator_next_scrolling_date := by
  induction fuel generalizing cam with
  | zero => exact Nat.zero_le _
  | succ n ih =>
    simp only [scroll_loop_iterations]
    split
    · rename_i hc
      have h1 := ih (scroll_step cam)
      rcases scroll_step_date now cam hnow hc with h0 | h0
      · rw [scroll_loop_iterations_of_exit n now _ (Or.inl h0)]
        omega
      · rw [h0] at h1
        omega
    · exact Nat.zero_le _

/-- The loop makes at most as many iterations as there are steps left to the
target, whatever the fuel. -/
theorem scroll_loop_iterations_le_remaining (fuel now : Nat) (cam : Camera) (r : Nat)
    (hr : 1 ≤ r)
    (htarget : cam.separator_target_position = cam.separator_scrolling_position.add_xy
      (r * cam.separator_scrolling_dx) (r * cam.separator_scrolling_dy)) :
    scroll_loop_iterations fuel now cam ≤ r := by
  induction fuel generalizing cam r with
  | zero => exact Nat.zero_le _
  | succ n ih =>
    simp only [scroll_loop_iterations]
    split
    · by_cases h1 : r = 1
      · have hz : (scroll_step cam).separator_next_scrolling_date = 0 := by
          simp only [scroll_step, htarget, h1, Rectangle.equals]
          simp
        rw [scroll_loop_iterations_of_exit n now _ (Or.inl hz)]
        omega
      · have hstep : (scroll_step cam).separator_target_position
            = (scroll_step cam).separator_scrolling_position.add_xy
                (((r - 1 : Nat) : Int) * (scroll_step cam).separator_scrolling_dx)
                (((r - 1 : Nat) : Int) * (scroll_step cam).separator_scrolling_dy) := by
          have hcast : ((r - 1 : Nat) : Int) = (r : Int) - 1 := by omega
          simp only [scroll_step, htarget, hcast, Rectangle.add_xy, Rectangle.mk.injEq,
            and_true]
          constructor <;> ring
        have := ih (scroll_step cam) (r - 1) (by omega) hstep
        omega
    · exact Nat.zero_le _

/-- More fuel than `update_fixed_on_hero` gives does not change the result of
the loop nor its number of iterations. -/
theorem scroll_loop_fuel_irrelevant (fuel now extra : Nat) (cam : Camera)
    (hnow : now < UINT32_SIZE)
    (hfuel : cam.separator_next_scrolling_date = 0
      ∨ now + 1 - cam.separator_next_scrolling_date ≤ fuel) :
    scroll_loop (fuel + extra) now cam = scroll_loop fuel now cam
      ∧ scroll_loop_iterations (fuel + extra) now cam
          = scroll_loop_iterations fuel now cam := by
  induction fuel generalizing cam with
  | zero =>
    have hex : cam.separator_next_scrolling_date = 0
        ∨ now < cam.separator_next_scrolling_date := by omega
    rw [scroll_loop_iterations_of_exit _ now cam hex,
      scroll_loop_iterations_of_exit _ now cam hex]
    refine ⟨?_, rfl⟩
    cases extra with
    | zero => rfl
    | succ e =>
      simp only [Nat.zero_add, scroll_loop]
      rw [if_neg]
      omega
  | succ n ih =>
    have hfe : n + 1 + extra = (n + extra) + 1 := by omega
    rw [hfe]
    simp only [scroll_loop, scroll_loop_iterations]
    split
    · rename_i hc
      have hstep : (scroll_step cam).separator_next_scrolling_date = 0
          ∨ now + 1 - (scroll_step cam).separator_next_scrolling_date ≤ n := by
        rcases scroll_step_date now cam hnow hc with h0 | h0
        · exact Or.inl h0
        · right
          rw [h0]
          omega
      obtain ⟨h1, h2⟩ := ih (scroll_step cam) hstep
      exact ⟨h1, by rw [h2]⟩
    · exact ⟨rfl, rfl⟩

theorem scroll_step_target_ahead (cam : Camera) (h : target_ahead cam)
    (hd : cam.separator_next_scrolling_date ≠ 0) : target_ahead (scroll_step cam) := by
  rcases h with h0 | ⟨r, hr, htarget⟩
  · exact absurd h0 hd
  · by_cases h1 : r = 1
    · left
      simp only [scroll_step, htarget, h1, Rectangle.equals]
      simp
    · right
      refine ⟨r - 1, by omega, ?_⟩
      have hcast : ((r - 1 : Nat) : Int) = (r : Int) - 1 := by omega
      simp only [scroll_step, htarget, hcast, Rectangle.add_xy, Rectangle.mk.injEq,
        and_true]
      constructor <;> ring

theorem scroll_loop_target_ahead (fuel now : Nat) (cam : Camera) (h : target_ahead cam) :
    target_ahead (scroll_loop fuel now cam) := by
  induction fuel generalizing cam with
  | zero => exact h
  | succ n ih =>
    simp only [scroll_loop]
    split
    · rename_i hc
      exact ih _ (scroll_step_target_ahead cam h hc.1)
    · exact h

theorem update_target_ahead (ops : MovementOps) (map : Map) (now : Nat) (cam : Camera)
    (r : Camera × List Notification) (h : target_ahead cam)
    (hu : update ops map now cam = some r) : target_ahead r.1 := by
  cases hfix : cam.fixed_on_hero
  · cases hm : cam.movement with
    | none =>
      rw [update_idle ops map now cam hfix hm] at hu
      cases hu
      exact h
    | some m =>
      rw [update_seek ops map now cam m hfix hm] at hu
      cases hu
      by_cases hf : ops.is_finished (ops.update m) = true
      · by_cases hr : cam.restoring = true
        · rw [if_pos hf, if_pos hr]
          exact h
        · rw [if_pos hf, if_neg hr]
          exact h
      · rw [if_neg hf]
        exact h
  · simp only [update, update_fixed_on_hero, hfix, if_true, Option.map] at hu
    cases hu
    by_cases hd : cam.separator_next_scrolling_date = 0
    · rw [if_pos hd]
      exact h
    · rw [if_neg hd]
      exact scroll_loop_target_ahead _ _ cam h

theorem traverse_separator_target_ahead (map : Map) (sep : Separator) (now : Nat)
    (cam : Camera) (hw : 0 < cam.position.width) (hh : 0 < cam.position.height) :
    target_ahead (traverse_separator map sep now cam).1 := by
  right
  obtain ⟨a, ha⟩ := Int.eq_ofNat_of_zero_le (le_of_lt hw)
  obtain ⟨b, hb⟩ := Int.eq_ofNat_of_zero_le (le_of_lt hh)
  simp only [traverse_separator, get_height, get_width, Rectangle.get_height,
    Rectangle.get_width]
  cases hor : sep.is_horizontal
  · refine ⟨a, by omega, ?_⟩
    simp only [Bool.false_eq_true, if_false]
    split <;> simp [Rectangle.add_x, Rectangle.add_xy, ha]
  · refine ⟨b, by omega, ?_⟩
    simp only [if_true]
    split <;> simp [Rectangle.add_y, Rectangle.add_xy, hb]

/-- From the construction with a positive quest size, every sequence of calls
ends in a state in which no traversal is in progress or the target is ahead
of the scrolling position. -/
theorem run_calls_target_ahead (ops : MovementOps) (quest_size : Rectangle)
    (hw : 0 < quest_size.width) (hh : 0 < quest_size.height)
    (calls : List (Map × Call)) :
    ∃ r, run_calls ops calls (create quest_size) = some r ∧ target_ahead r.1 := by
  have key := run_calls_invariant ops
    (fun c => (c.position.width = quest_size.width
      ∧ c.position.height = quest_size.height) ∧ target_ahead c) ?_ calls
    (create quest_size) ⟨⟨rfl, rfl⟩, Or.inl rfl⟩
  · obtain ⟨r, hr, _, hT⟩ := key
    exact ⟨r, hr, hT⟩
  · intro map c cam r hP hcall
    cases c with
    | update now =>
      simp only [call] at hcall
      refine ⟨?_, update_target_ahead ops map now cam r hP.2 hcall⟩
      cases hfix : cam.fixed_on_hero
      · cases hm : cam.movement with
        | none =>
          rw [update_idle ops map now cam hfix hm] at hcall
          cases hcall
          exact hP.1
        | some m =>
          rw [update_seek ops map now cam m hfix hm] at hcall
          cases hcall
          by_cases hf : ops.is_finished (ops.update m) = true
          · by_cases hr : cam.restoring = true
            · rw [if_pos hf, if_pos hr]
              exact hP.1
            · rw [if_pos hf, if_neg hr]
              exact hP.1
          · rw [if_neg hf]
            exact hP.1
      · obtain ⟨c1, h1, _, _, _, _, _, hw1, hh1, _⟩ := update_fixed ops map now cam hfix
        rw [h1] at hcall
        cases hcall
        exact ⟨hw1.trans hP.1.1, hh1.trans hP.1.2⟩
    | move x y =>
      cases hcall
      exact hP
    | move_entity x y =>
      cases hcall
      exact hP
    | restore =>
      cases hcall
      exact hP
    | set_speed v =>
      cases hcall
      exact hP
    | traverse_separator sep now =>
      cases hcall
      exact ⟨hP.1, traverse_separator_target_ahead map sep now cam
        (by rw [hP.1.1]; exact hw) (by rw [hP.1.2]; exact hh)⟩

/-- The half of a positive size, as C++ computes it. -/
theorem tdiv_two_bounds (w : Int) (hw : 0 < w) :
    2 * Int.tdiv w 2 ≤ w ∧ w ≤ 2 * Int.tdiv w 2 + 1 ∧ 0 ≤ Int.tdiv w 2 := by
  rw [Int.tdiv_eq_ediv (le_of_lt hw) (by decide)]
  omega

/-- The snap of an active vertical separator keeps the point `x + w/2` (the
center of the hero) between the left and the right edge. -/
theorem snap_x_keeps_center (w h x y : Int) (s : Separator) (hw : 0 < w)
    (hv : s.is_vertical = true) (hs : separator_active w h x y s) :
    (if s.x + 8 - x > x + w - (s.x + 8) then s.x + 8 - w else s.x + 8) ≤ x + Int.tdiv w 2
    ∧ x + Int.tdiv w 2
      ≤ (if s.x + 8 - x > x + w - (s.x + 8) then s.x + 8 - w else s.x + 8) + w := by
  unfold separator_active at hs
  rw [if_pos hv] at hs
  simp only [Separator.get_x] at hs
  have hb := tdiv_two_bounds w hw
  split <;> omega

/-- The snap of an active horizontal separator keeps the point `y + h/2` (the
center of the hero) between the top and the bottom edge. -/
theorem snap_y_keeps_center (w h x y : Int) (s : Separator) (hh : 0 < h)
    (hv : s.is_vertical = false) (hs : separator_active w h x y s) :
    (if s.y + 8 - y > y + h - (s.y + 8) then s.y + 8 - h else s.y + 8) ≤ y + Int.tdiv h 2
    ∧ y + Int.tdiv h 2
      ≤ (if s.y + 8 - y > y + h - (s.y + 8) then s.y + 8 - h else s.y + 8) + h := by
  unfold separator_active at hs
  simp only [hv, Bool.false_eq_true, if_false, Separator.get_y] at hs
  have hb := tdiv_two_bounds h hh
  split <;> omega

/-- The first loop keeps the center of the hero inside the adjusted
rectangle. -/
theorem foldl_first_scan_keeps_center (w h x y : Int) (hw : 0 < w) (hh : 0 < h)
    (l : List Separator) (st : Scan)
    (hst : (st.adjusted_x ≤ x + Int.tdiv w 2 ∧ x + Int.tdiv w 2 ≤ st.adjusted_x + w)
      ∧ (st.adjusted_y ≤ y + Int.tdiv h 2 ∧ y + Int.tdiv h 2 ≤ st.adjusted_y + h)) :
    ((l.foldl (first_scan_step w h x y) st).adjusted_x ≤ x + Int.tdiv w 2
      ∧ x + Int.tdiv w 2 ≤ (l.foldl (first_scan_step w h x y) st).adjusted_x + w)
    ∧ ((l.foldl (first_scan_step w h x y) st).adjusted_y ≤ y + Int.tdiv h 2
      ∧ y + Int.tdiv h 2 ≤ (l.foldl (first_scan_step w h x y) st).adjusted_y + h) := by
  induction l generalizing st with
  | nil => exact hst
  | cons s l ih =>
    rw [List.foldl_cons]
    apply ih
    by_cases hs : separator_active w h x y s
    · cases hv : s.is_vertical
      · rw [first_scan_step_horizontal_active w h x y st s hv hs]
        exact ⟨hst.1, snap_y_keeps_center w h x y s hh hv hs⟩
      · rw [first_scan_step_vertical_active w h x y st s hv hs]
        exact ⟨snap_x_keeps_center w h x y s hw hv hs, hst.2⟩
    · rw [first_scan_step_inactive w h x y st s hs]
      exact hst

/-- The resolution of the separators keeps the center of the hero inside the
rectangle. -/
theorem resolve_separators_keeps_center (w h x y : Int) (hw : 0 < w) (hh : 0 < h)
    (l : List Separator) :
    ((resolve_separators w h x y l).1 ≤ x + Int.tdiv w 2
      ∧ x + Int.tdiv w 2 ≤ (resolve_separators w h x y l).1 + w)
    ∧ ((resolve_separators w h x y l).2 ≤ y + Int.tdiv h 2
      ∧ y + Int.tdiv h 2 ≤ (resolve_separators w h x y l).2 + h) := by
  have hbw := tdiv_two_bounds w hw
  have hbh := tdiv_two_bounds h hh
  have hscan := foldl_first_scan_keeps_center w h x y hw hh l ⟨x, y, []⟩
    ⟨⟨by simp only []; omega, by simp only []; omega⟩,
      ⟨by simp only []; omega, by simp only []; omega⟩⟩
  simp only [resolve_separators, first_scan]
  constructor
  · split
    · exact hscan.1
    · omega
  · split
    · exact hscan.2
    · omega

/-- Without an active horizontal separator the first loop leaves `adjusted_y`
as it is. -/
theorem foldl_first_scan_adjusted_y_of_none (w h x y : Int) (l : List Separator) (st : Scan)
    (hl : ∀ s ∈ l, separator_active w h x y s → s.is_vertical = true) :
    (l.foldl (first_scan_step w h x y) st).adjusted_y = st.adjusted_y := by
  induction l generalizing st with
  | nil => rfl
  | cons t l ih =>
    rw [List.foldl_cons, ih _ (fun s hs => hl s (List.mem_cons_of_mem t hs))]
    by_cases ht : separator_active w h x y t
    · rw [first_scan_step_vertical_active w h x y st t (hl t (List.mem_cons_self t l) ht) ht]
    · rw [first_scan_step_inactive w h x y st t ht]

/-- Without an active vertical separator the first loop leaves `adjusted_x`
as it is. -/
theorem foldl_first_scan_adjusted_x_of_none (w h x y : Int) (l : List Separator) (st : Scan)
    (hl : ∀ s ∈ l, separator_active w h x y s → s.is_vertical = false) :
    (l.foldl (first_scan_step w h x y) st).adjusted_x = st.adjusted_x := by
  induction l generalizing st with
  | nil => rfl
  | cons t l ih =>
    rw [List.foldl_cons, ih _ (fun s hs => hl s (List.mem_cons_of_mem t hs))]
    by_cases ht : separator_active w h x y t
    · rw [first_scan_step_horizontal_active w h x y st t (hl t (List.mem_cons_self t l) ht) ht]
    · rw [first_scan_step_inactive w h x y st t ht]

/-- When both axes were adjusted, the result of the resolution differs from
the raw corner exactly when the second loop keeps an adjustment. -/
theorem resolve_ne_raw_iff (w h x y : Int) (l : List Separator)
    (hx : (first_scan w h x y l).adjusted_x ≠ x)
    (hy : (first_scan w h x y l).adjusted_y ≠ y) :
    resolve_separators w h x y l ≠ (x, y)
      ↔ (must_adjust w h x y (first_scan w h x y l)).1 = true
        ∨ (must_adjust w h x y (first_scan w h x y l)).2 = true := by
  simp only [resolve_separators, ne_eq, Prod.mk.injEq]
  cases h1 : (must_adjust w h x y (first_scan w h x y l)).1 <;>
    cases h2 : (must_adjust w h x y (first_scan w h x y l)).2 <;> simp [hx, hy]

/-- When all the active vertical separators have their left side at `X` and
there is one, the first loop ends with the snap of the line `X + 8`. -/
theorem foldl_first_scan_adjusted_x_of_same (w h x y X : Int) (l : List Separator)
    (st : Scan)
    (hsame : ∀ s ∈ l, s.is_vertical = true → separator_active w h x y s → s.x = X)
    (hex : ∃ s ∈ l, s.is_vertical = true ∧ separator_active w h x y s) :
    (l.foldl (first_scan_step w h x y) st).adjusted_x
      = if X + 8 - x > x + w - (X + 8) then X + 8 - w else X + 8 := by
  induction l generalizing st with
  | nil =>
    obtain ⟨s, hs, _⟩ := hex
    cases hs
  | cons t l ih =>
    rw [List.foldl_cons]
    by_cases hrest : ∃ s ∈ l, s.is_vertical = true ∧ separator_active w h x y s
    · exact ih _ (fun s hs => hsame s (List.mem_cons_of_mem t hs)) hrest
    · have hnone : ∀ s ∈ l, separator_active w h x y s → s.is_vertical = false := by
        intro s hs ha
        cases hv : s.is_vertical
        · rfl
        · exact absurd ⟨s, hs, hv, ha⟩ hrest
      rw [foldl_first_scan_adjusted_x_of_none w h x y l _ hnone]
      obtain ⟨s, hs, hv, ha⟩ := hex
      rcases List.mem_cons.mp hs with rfl | hs'
      · rw [first_scan_step_vertical_active w h x y st s hv ha,
          hsame s (List.mem_cons_self s l) hv ha]
      · exact absurd ⟨s, hs', hv, ha⟩ hrest

/-- When all the active horizontal separators have their top side at `Y` and
there is one, the first loop ends with the snap of the line `Y + 8`. -/
theorem foldl_first_scan_adjusted_y_of_same (w h x y Y : Int) (l : List Separator)
    (st : Scan)
    (hsame : ∀ s ∈ l, s.is_vertical = false → separator_active w h x y s → s.y = Y)
    (hex : ∃ s ∈ l, s.is_vertical = false ∧ separator_active w h x y s) :
    (l.foldl (first_scan_step w h x y) st).adjusted_y
      = if Y + 8 - y > y + h - (Y + 8) then Y + 8 - h else Y + 8 := by
  induction l generalizing st with
  | nil =>
    obtain ⟨s, hs, _⟩ := hex
    cases hs
  | cons t l ih =>
    rw [List.foldl_cons]
    by_cases hrest : ∃ s ∈ l, s.is_vertical = false ∧ separator_active w h x y s
    · exact ih _ (fun s hs => hsame s (List.mem_cons_of_mem t hs)) hrest
    · have hnone : ∀ s ∈ l, separator_active w h x y s → s.is_vertical = true := by
        intro s hs ha
        cases hv : s.is_vertical
        · exact absurd ⟨s, hs, hv, ha⟩ hrest
        · rfl
      rw [foldl_first_scan_adjusted_y_of_none w h x y l _ hnone]
      obtain ⟨s, hs, hv, ha⟩ := hex
      rcases List.mem_cons.mp hs with rfl | hs'
      · rw [first_scan_step_horizontal_active w h x y st s hv ha,
          hsame s (List.mem_cons_self s l) hv ha]
      · exact absurd ⟨s, hs', hv, ha⟩ hrest

/-- Under `same_lines` the `adjusted_x` of the first loop does not depend on
the order of the registry. -/
theorem first_scan_adjusted_x_perm (w h x y : Int) (l1 l2 : List Separator)
    (hperm : l1.Perm l2) (hsame : same_lines w h x y l1) :
    (first_scan w h x y l1).adjusted_x = (first_scan w h x y l2).adjusted_x := by
  unfold first_scan
  by_cases hex : ∃ s ∈ l1, s.is_vertical = true ∧ separator_active w h x y s
  · obtain ⟨s0, hs0, hv0, ha0⟩ := hex
    rw [foldl_first_scan_adjusted_x_of_same w h x y s0.x l1 _
        (fun s hs hv ha => ((hsame s hs s0 hs0 ha ha0).1 hv hv0))
        ⟨s0, hs0, hv0, ha0⟩,
      foldl_first_scan_adjusted_x_of_same w h x y s0.x l2 _
        (fun s hs hv ha => ((hsame s (hperm.mem_iff.mpr hs) s0 hs0 ha ha0).1 hv hv0))
        ⟨s0, hperm.mem_iff.mp hs0, hv0, ha0⟩]
  · have hnone : ∀ l : List Separator, (∀ s, s ∈ l → s ∈ l1) →
        ∀ s ∈ l, separator_active w h x y s → s.is_vertical = false := by
      intro l hl s hs ha
      cases hv : s.is_vertical
      · rfl
      · exact absurd ⟨s, hl s hs, hv, ha⟩ hex
    rw [foldl_first_scan_adjusted_x_of_none w h x y l1 _ (hnone l1 (fun _ hs => hs)),
      foldl_first_scan_adjusted_x_of_none w h x y l2 _
        (hnone l2 (fun _ hs => hperm.mem_iff.mpr hs))]

/-- Under `same_lines` the `adjusted_y` of the first loop does not depend on
the order of the registry. -/
theorem first_scan_adjusted_y_perm (w h x y : Int) (l1 l2 : List Separator)
    (hperm : l1.Perm l2) (hsame : same_lines w h x y l1) :
    (first_scan w h x y l1).adjusted_y = (first_scan w h x y l2).adjusted_y := by
  unfold first_scan
  by_cases hex : ∃ s ∈ l1, s.is_vertical = false ∧ separator_active w h x y s
  · obtain ⟨s0, hs0, hv0, ha0⟩ := hex
    rw [foldl_first_scan_adjusted_y_of_same w h x y s0.y l1 _
        (fun s hs hv ha => ((hsame s hs s0 hs0 ha ha0).2 hv hv0))
        ⟨s0, hs0, hv0, ha0⟩,
      foldl_first_scan_adjusted_y_of_same w h x y s0.y l2 _
        (fun s hs hv ha => ((hsame s (hperm.mem_iff.mpr hs) s0 hs0 ha ha0).2 hv hv0))
        ⟨s0, hperm.mem_iff.mp hs0, hv0, ha0⟩]
  · have hnone : ∀ l : List Separator, (∀ s, s ∈ l → s ∈ l1) →
        ∀ s ∈ l, separator_active w h x y s → s.is_vertical = true := by
      intro l hl s hs ha
      cases hv : s.is_vertical
      · exact absurd ⟨s, hl s hs, hv, ha⟩ hex
      · rfl
    rw [foldl_first_scan_adjusted_y_of_none w h x y l1 _ (hnone l1 (fun _ hs => hs)),
      foldl_first_scan_adjusted_y_of_none w h x y l2 _
        (hnone l2 (fun _ hs => hperm.mem_iff.mpr hs))]

/-- Under `same_lines` the resolution of the separators does not depend on
the order of the registry. -/
theorem resolve_separators_perm (w h x y : Int) (l1 l2 : List Separator)
    (hperm : l1.Perm l2) (hsame : same_lines w h x y l1) :
    resolve_separators w h x y l1 = resolve_separators w h x y l2 := by
  have hax := first_scan_adjusted_x_perm w h x y l1 l2 hperm hsame
  have hay := first_scan_adjusted_y_perm w h x y l1 l2 hperm hsame
  have hmem : ∀ s, s ∈ (first_scan w h x y l1).applied_separators
      ↔ s ∈ (first_scan w h x y l2).applied_separators := by
    intro s
    rw [first_scan_applied, first_scan_applied, List.mem_filter, List.mem_filter,
      hperm.mem_iff]
  have hm : must_adjust w h x y (first_scan w h x y l1)
      = must_adjust w h x y (first_scan w h x y l2) := by
    unfold must_adjust
    rw [← hax, ← hay]
    by_cases hc : (first_scan w h x y l1).adjusted_x ≠ x
        ∧ (first_scan w h x y l1).adjusted_y ≠ y
    · rw [if_pos hc, if_pos hc]
      apply Prod.ext
      · rw [Bool.eq_iff_iff, foldl_second_scan_fst, foldl_second_scan_fst]
        simp only [hmem]
      · rw [Bool.eq_iff_iff, foldl_second_scan_snd, foldl_second_scan_snd]
        simp only [hmem]
    · rw [if_neg hc, if_neg hc]
  simp only [resolve_separators, hm, hax, hay]

/-! ## Claims -/

/-- C1: for every hero, separator list, traversal sub-state and clock value,
when the map is at least as large as the camera on both axes, a call of
`update_fixed_on_hero` in the fixed-on-hero mode returns a camera whose
position satisfies `0 ≤ x ≤ map_width - width` and
`0 ≤ y ≤ map_height - height`. -/
theorem update_fixed_on_hero_within_map (map : Map) (now : Nat) (cam : Camera)
    (hfix : cam.fixed_on_hero = true)
    (hw : cam.position.width ≤ map.location.width)
    (hh : cam.position.height ≤ map.location.height) :
    ∃ cam', update_fixed_on_hero map now cam = some cam'
      ∧ 0 ≤ cam'.position.x
      ∧ cam'.position.x ≤ map.location.width - cam'.position.width
      ∧ 0 ≤ cam'.position.y
      ∧ cam'.position.y ≤ map.location.height - cam'.position.height := by
  refine ⟨_, by simp only [update_fixed_on_hero, hfix, if_true]; rfl, ?_⟩
  by_cases hd : cam.separator_next_scrolling_date = 0
  · simp only [hd, if_true, Rectangle.set_xy, get_width, get_height,
      Rectangle.get_width, Rectangle.get_height]
    have h1 := clamp_to_map_bounds map.location.width cam.position.width
    have h2 := clamp_to_map_bounds map.location.height cam.position.height
    exact ⟨(h1 _ hw).1, (h1 _ hw).2, (h2 _ hh).1, (h2 _ hh).2⟩
  · simp only [hd, if_false, Rectangle.set_xy, get_width, get_height,
      Rectangle.get_width, Rectangle.get_height, scroll_loop_position]
    have h1 := clamp_to_map_bounds map.location.width cam.position.width
    have h2 := clamp_to_map_bounds map.location.height cam.position.height
    exact ⟨(h1 _ hw).1, (h1 _ hw).2, (h2 _ hh).1, (h2 _ hh).2⟩

/-- C2: in the fixed-on-hero mode with no traversal in progress, no separator
active on the raw rectangle and a map at least as large as the camera,
`update` returns with `position.x = min (max (hero_x - width/2) 0)
(map_width - width)` and `position.y = min (max (hero_y - height/2) 0)
(map_height - height)`, the size of the position being unchanged and no
notification being sent; in particular a 400x240 camera on an 800x480 map
with the hero centered at (100,100) and no separator gets the position
(0,0,400,240). -/
theorem update_without_separator (ops : MovementOps) (map : Map) (now : Nat)
    (cam : Camera)
    (hfix : cam.fixed_on_hero = true)
    (hdate : cam.separator_next_scrolling_date = 0)
    (hw : cam.position.width ≤ map.location.width)
    (hh : cam.position.height ≤ map.location.height)
    (hsep : ∀ s ∈ map.separators,
      ¬ separator_active cam.position.width cam.position.height
        (map.hero.center_x - Int.tdiv cam.position.width 2)
        (map.hero.center_y - Int.tdiv cam.position.height 2) s) :
    (∃ cam', update ops map now cam = some (cam', [])
      ∧ cam'.position.x
        = min (max (map.hero.center_x - Int.tdiv cam.position.width 2) 0)
            (map.location.width - cam.position.width)
      ∧ cam'.position.y
        = min (max (map.hero.center_y - Int.tdiv cam.position.height 2) 0)
            (map.location.height - cam.position.height)
      ∧ cam'.position.width = cam.position.width
      ∧ cam'.position.height = cam.position.height)
    ∧ (∀ hero_x hero_y : Int,
        (update ops ⟨⟨0, 0, 800, 480⟩, ⟨hero_x, hero_y, 100, 100⟩, []⟩ now
          (create ⟨0, 0, 400, 240⟩)).map (fun r => r.1.position)
        = some ⟨0, 0, 400, 240⟩) := by
  constructor
  · refine ⟨_, by simp only [update, update_fixed_on_hero, hfix, if_true, Option.map]; rfl, ?_⟩
    simp only [hdate, if_true, Rectangle.set_xy, get_width, get_height,
      Rectangle.get_width, Rectangle.get_height,
      resolve_separators_inactive _ _ _ _ _ hsep, clamp_to_map]
    rw [if_neg (by omega), if_neg (by omega)]
    simp
  · intro hero_x hero_y
    rfl

/-- Witness of C2: a 320x240 camera on a 640x480 map with one vertical
separator far from the raw rectangle of a hero centered at (500, 300). -/
theorem update_without_separator_witness :
    ∃ cam', update ⟨id, fun _ => false⟩
        ⟨⟨0, 0, 640, 480⟩, ⟨492, 287, 500, 300⟩, [⟨true, 100, 0, 16, 480, 108, 240⟩]⟩ 7
        (create ⟨0, 0, 320, 240⟩) = some (cam', [])
      ∧ cam'.position.x = 320 ∧ cam'.position.y = 180
      ∧ cam'.position.width = 320 ∧ cam'.position.height = 240 :=
  (update_without_separator ⟨id, fun _ => false⟩
    ⟨⟨0, 0, 640, 480⟩, ⟨492, 287, 500, 300⟩, [⟨true, 100, 0, 16, 480, 108, 240⟩]⟩ 7
    (create ⟨0, 0, 320, 240⟩) rfl rfl (by decide) (by decide) (by decide)).1

/-- C3 (as the spec states it, refuted): on a map of width 313 a camera of
width 320 gets `x = -3`, while the integer floor of `(313 - 320) / 2` is
`-4`. -/
theorem centered_is_not_floor :
    (⟨0, 0, 313, 480⟩ : Rectangle).width < (create ⟨0, 0, 320, 240⟩).position.width
    ∧ (update_fixed_on_hero ⟨⟨0, 0, 313, 480⟩, ⟨92, 87, 100, 100⟩, []⟩ 0
        (create ⟨0, 0, 320, 240⟩)).map (fun c => c.position.x) = some (-3)
    ∧ Int.fdiv ((⟨0, 0, 313, 480⟩ : Rectangle).width
        - (create ⟨0, 0, 320, 240⟩).position.width) 2 = -4 := by
  decide

/-- C3 (amended): on every axis on which the map is strictly smaller than the
camera, `update_fixed_on_hero` in the fixed-on-hero mode returns a position
whose coordinate on that axis is `(map_dimension - camera_dimension) / 2`
rounded toward zero, whatever the hero, the separators, the clock and the
traversal sub-state. -/
theorem update_fixed_on_hero_centered (map : Map) (now : Nat) (cam : Camera)
    (hfix : cam.fixed_on_hero = true) :
    ∃ cam', update_fixed_on_hero map now cam = some cam'
      ∧ (map.location.width < cam.position.width →
          cam'.position.x = Int.tdiv (map.location.width - cam.position.width) 2)
      ∧ (map.location.height < cam.position.height →
          cam'.position.y = Int.tdiv (map.location.height - cam.position.height) 2) := by
  refine ⟨_, by simp only [update_fixed_on_hero, hfix, if_true]; rfl, ?_⟩
  by_cases hd : cam.separator_next_scrolling_date = 0
  · simp only [hd, if_true, Rectangle.set_xy, get_width, get_height,
      Rectangle.get_width, Rectangle.get_height, clamp_to_map]
    exact ⟨fun h => if_pos h, fun h => if_pos h⟩
  · simp only [hd, if_false, Rectangle.set_xy, get_width, get_height,
      Rectangle.get_width, Rectangle.get_height, scroll_loop_position, clamp_to_map]
    exact ⟨fun h => if_pos h, fun h => if_pos h⟩

/-- Witness of C3 (amended): a 320x240 camera in the middle of a traversal on
a 313x200 map. -/
theorem update_fixed_on_hero_centered_witness :
    ∃ cam', update_fixed_on_hero ⟨⟨0, 0, 313, 200⟩, ⟨92, 87, 100, 100⟩, []⟩ 12
        { create ⟨0, 0, 320, 240⟩ with
          separator_scrolling_dx := 1
          separator_next_scrolling_date := 10
          separator_target_position := ⟨320, 0, 0, 0⟩ } = some cam'
      ∧ cam'.position.x = -3 ∧ cam'.position.y = -20 := by
  obtain ⟨cam', h, hx, hy⟩ := update_fixed_on_hero_centered
    ⟨⟨0, 0, 313, 200⟩, ⟨92, 87, 100, 100⟩, []⟩ 12
    { create ⟨0, 0, 320, 240⟩ with
      separator_scrolling_dx := 1
      separator_next_scrolling_date := 10
      separator_target_position := ⟨320, 0, 0, 0⟩ } rfl
  exact ⟨cam', h, hx (by decide), hy (by decide)⟩

/-- Witness of C1: a 320x240 camera on a 640x480 map, in the middle of a
traversal towards the right. -/
theorem update_fixed_on_hero_within_map_witness :
    ∃ cam', update_fixed_on_hero ⟨⟨0, 0, 640, 480⟩, ⟨92, 87, 100, 100⟩, []⟩ 12
        { create ⟨0, 0, 320, 240⟩ with
          separator_scrolling_dx := 1
          separator_next_scrolling_date := 10
          separator_scrolling_position := ⟨400, 0, 320, 240⟩
          separator_target_position := ⟨720, 0, 320, 240⟩ } = some cam'
      ∧ 0 ≤ cam'.position.x ∧ cam'.position.x ≤ 640 - cam'.position.width
      ∧ 0 ≤ cam'.position.y ∧ cam'.position.y ≤ 480 - cam'.position.height :=
  update_fixed_on_hero_within_map ⟨⟨0, 0, 640, 480⟩, ⟨92, 87, 100, 100⟩, []⟩ 12
    { create ⟨0, 0, 320, 240⟩ with
      separator_scrolling_dx := 1
      separator_next_scrolling_date := 10
      separator_scrolling_position := ⟨400, 0, 320, 240⟩
      separator_target_position := ⟨720, 0, 320, 240⟩ } rfl (by decide) (by decide)

/-- C4: when exactly one separator of the registry is active on the raw
rectangle and it is a vertical separator at `x = s` (`raw_x < s+8 <
raw_x+width` with overlapping vertical extents), the resolution of the
separators gives `x = s+8-width` when `left > right` and `x = s+8` otherwise
(tie included), where `left = s+8-raw_x` and `right = raw_x+width-(s+8)`, and
`y` keeps its raw value. -/
theorem resolve_single_vertical (w h x y : Int) (l1 l2 : List Separator) (s : Separator)
    (hv : s.is_vertical = true)
    (hx1 : x < s.x + 8) (hx2 : s.x + 8 < x + w)
    (hy1 : s.y < y + h) (hy2 : y < s.y + s.height)
    (h1 : ∀ t ∈ l1, ¬ separator_active w h x y t)
    (h2 : ∀ t ∈ l2, ¬ separator_active w h x y t) :
    resolve_separators w h x y (l1 ++ s :: l2)
      = (if s.x + 8 - x > x + w - (s.x + 8) then s.x + 8 - w else s.x + 8, y) := by
  have hs : separator_active w h x y s := by
    unfold separator_active
    rw [if_pos hv]
    exact ⟨hx1, hx2, hy1, hy2⟩
  simp only [resolve_separators, first_scan, List.foldl_append, List.foldl_cons,
    foldl_first_scan_inactive w h x y l1 _ h1,
    first_scan_step_vertical_active w h x y _ s hv hs,
    foldl_first_scan_inactive w h x y l2 _ h2, must_adjust]
  simp

/-- Witness of C4: a tie (`left = right = 100`) between two inactive
separators. -/
theorem resolve_single_vertical_witness :
    resolve_separators 200 160 0 0
        ([⟨false, 0, 300, 200, 16, 100, 308⟩] ++ ⟨true, 92, 0, 16, 160, 100, 80⟩
          :: [⟨true, 400, 0, 16, 160, 408, 80⟩])
      = (if (92 : Int) + 8 - 0 > 0 + 200 - (92 + 8) then 92 + 8 - 200 else 92 + 8, 0) :=
  resolve_single_vertical 200 160 0 0 [⟨false, 0, 300, 200, 16, 100, 308⟩]
    [⟨true, 400, 0, 16, 160, 408, 80⟩] ⟨true, 92, 0, 16, 160, 100, 80⟩ rfl
    (by decide) (by decide) (by decide) (by decide) (by decide) (by decide)

/-- C5 (as the spec states it, refuted): with a 200x160 camera, the raw corner
(50, 0) and one vertical separator at `x = 100` covering the height of the
rectangle, `left = 58` and `right = 142`, and the resolution gives `x = 108`,
not `108 - 200 = -92`. -/
theorem snap_example_is_not_minus_92 :
    ((100 : Int) + 8 - 50 = 58) ∧ ((50 : Int) + 200 - (100 + 8) = 142)
    ∧ resolve_separators 200 160 50 0 [⟨true, 100, 0, 16, 160, 108, 80⟩] = (108, 0)
    ∧ (resolve_separators 200 160 50 0 [⟨true, 100, 0, 16, 160, 108, 80⟩]).1
        ≠ 108 - 200 := by
  decide

/-- C5 (amended): with a camera of width 200, the raw corner at `x = 50` and a
single vertical separator at `x = 100` whose vertical extent overlaps the raw
rectangle, the resolution of the separators snaps `x` to `108` (the buffer
line becomes the left edge) and keeps `y`. -/
theorem snap_example (h y : Int) (s : Separator)
    (hv : s.is_vertical = true) (hx : s.x = 100)
    (hy1 : s.y < y + h) (hy2 : y < s.y + s.height) :
    resolve_separators 200 h 50 y [s] = (108, y) := by
  have hs : separator_active 200 h 50 y s := by
    unfold separator_active
    rw [if_pos hv]
    simp only [Separator.get_x, Separator.get_y, Separator.get_height, hx]
    exact ⟨by decide, by decide, hy1, hy2⟩
  simp only [resolve_separators, first_scan, List.foldl_cons, List.foldl_nil,
    first_scan_step_vertical_active 200 h 50 y _ s hv hs, must_adjust, hx]
  simp

/-- Witness of C5 (amended). -/
theorem snap_example_witness :
    resolve_separators 200 160 50 0 [⟨true, 100, -20, 16, 400, 108, 180⟩] = (108, 0) :=
  snap_example 160 0 ⟨true, 100, -20, 16, 400, 108, 180⟩ rfl rfl (by decide) (by decide)

/-- C6: T-junction rule.  When the first scan adjusted both axes, the applied
separators are the separators active on the raw rectangle, the resolved `y`
is `adjusted_y` if some applied horizontal separator has its line strictly
inside `(raw_y, raw_y+height)` and its x-extent overlapping
`[adjusted_x, adjusted_x+width)`, and the raw `y` otherwise; the resolved `x`
is `adjusted_x` if some applied vertical separator still intersects the
rectangle taken at `adjusted_y`, and the raw `x` otherwise.  In particular,
with one vertical and one horizontal separator both active on the raw
rectangle, where the horizontal one no longer overlaps the rectangle taken at
`adjusted_x`, the resolved `y` is the raw `y`. -/
theorem t_junction_rule (w h x y : Int) (seps : List Separator) :
    ((first_scan w h x y seps).adjusted_x ≠ x →
      (first_scan w h x y seps).adjusted_y ≠ y →
      (first_scan w h x y seps).applied_separators
          = seps.filter (fun s => decide (separator_active w h x y s))
        ∧ ((∃ s ∈ (first_scan w h x y seps).applied_separators,
              still_intersects_y w h y (first_scan w h x y seps).adjusted_x s) →
            (resolve_separators w h x y seps).2 = (first_scan w h x y seps).adjusted_y)
        ∧ ((¬ ∃ s ∈ (first_scan w h x y seps).applied_separators,
              still_intersects_y w h y (first_scan w h x y seps).adjusted_x s) →
            (resolve_separators w h x y seps).2 = y)
        ∧ ((∃ s ∈ (first_scan w h x y seps).applied_separators,
              still_intersects_x w h x (first_scan w h x y seps).adjusted_y s) →
            (resolve_separators w h x y seps).1 = (first_scan w h x y seps).adjusted_x)
        ∧ ((¬ ∃ s ∈ (first_scan w h x y seps).applied_separators,
              still_intersects_x w h x (first_scan w h x y seps).adjusted_y s) →
            (resolve_separators w h x y seps).1 = x))
    ∧ (∀ V H : Separator, V.is_vertical = true → H.is_vertical = false →
        separator_active w h x y V → separator_active w h x y H →
        (seps = [V, H] ∨ seps = [H, V]) →
        ¬ (H.x < (first_scan w h x y seps).adjusted_x + w
            ∧ (first_scan w h x y seps).adjusted_x < H.x + H.width) →
        (resolve_separators w h x y seps).2 = y) := by
  constructor
  · intro hx hy
    refine ⟨first_scan_applied w h x y seps, ?_, ?_, ?_, ?_⟩
    · intro he
      have := (must_adjust_snd w h x y seps hx hy).mpr he
      simp [resolve_separators, this]
    · intro he
      have := mt (must_adjust_snd w h x y seps hx hy).mp he
      simp [resolve_separators, this]
    · intro he
      have := (must_adjust_fst w h x y seps hx hy).mpr he
      simp [resolve_separators, this]
    · intro he
      have := mt (must_adjust_fst w h x y seps hx hy).mp he
      simp [resolve_separators, this]
  · intro V H hV hH haV haH hseps hno
    have hVmem : V ∈ seps := by rcases hseps with rfl | rfl <;> simp
    have hHmem : H ∈ seps := by rcases hseps with rfl | rfl <;> simp
    have hx : (first_scan w h x y seps).adjusted_x ≠ x :=
      foldl_first_scan_adjusted_x_ne w h x y seps _ (Or.inr ⟨V, hVmem, hV, haV⟩)
    have hy : (first_scan w h x y seps).adjusted_y ≠ y :=
      foldl_first_scan_adjusted_y_ne w h x y seps _ (Or.inr ⟨H, hHmem, hH, haH⟩)
    have hnot : ¬ ∃ s ∈ (first_scan w h x y seps).applied_separators,
        still_intersects_y w h y (first_scan w h x y seps).adjusted_x s := by
      rintro ⟨s, hs, hsv, _, _, h3, h4⟩
      rw [first_scan_applied] at hs
      have hs' : s ∈ seps := (List.mem_filter.mp hs).1
      have : s = V ∨ s = H := by
        rcases hseps with rfl | rfl <;> simpa [or_comm] using hs'
      rcases this with rfl | rfl
      · rw [hV] at hsv
        cases hsv
      · exact hno ⟨h3, h4⟩
    have := mt (must_adjust_snd w h x y seps hx hy).mp hnot
    simp [resolve_separators, this]

/-- Witness of C6: a T junction seen by a 100x100 camera at the raw corner
(0, 0): the vertical separator (line `x = 40`) is kept, the horizontal one
(line `y = 50`, x-extent `[0, 40)`) is discarded, and the result is (40, 0). -/
theorem t_junction_rule_witness :
    resolve_separators 100 100 0 0
        [⟨true, 32, 0, 16, 200, 40, 100⟩, ⟨false, 0, 42, 40, 16, 20, 50⟩] = (40, 0)
    ∧ (first_scan 100 100 0 0
        [⟨true, 32, 0, 16, 200, 40, 100⟩, ⟨false, 0, 42, 40, 16, 20, 50⟩]).adjusted_y = 50 := by
  have h := (t_junction_rule 100 100 0 0
    [⟨true, 32, 0, 16, 200, 40, 100⟩, ⟨false, 0, 42, 40, 16, 20, 50⟩]).2
    ⟨true, 32, 0, 16, 200, 40, 100⟩ ⟨false, 0, 42, 40, 16, 20, 50⟩ rfl rfl
    (by decide) (by decide) (Or.inl rfl) (by decide)
  have h1 := ((t_junction_rule 100 100 0 0
    [⟨true, 32, 0, 16, 200, 40, 100⟩, ⟨false, 0, 42, 40, 16, 20, 50⟩]).1
    (by decide) (by decide)).2.2.2.1
    ⟨⟨true, 32, 0, 16, 200, 40, 100⟩, by decide, by decide⟩
  refine ⟨Prod.ext ?_ ?_, by decide⟩
  · rw [h1]
    decide
  · exact h

/-- C7: a traversal started by `traverse_separator` at a tick `t0 > 0` in the
fixed-on-hero mode, with a positive camera dimension `d` on the scroll axis
and `t0 + d < 2^32`, followed by calls of `update` at non-decreasing clock
values `≥ t0` (whatever the maps of the frames): after the call at the clock
value `t` the scrolling position is the start position plus
`min (t - t0 + 1) d` times the scroll step, the target is unchanged, the
traversal is over (`separator_next_scrolling_date = 0`) exactly when
`t ≥ t0 + d - 1`, in which case the scrolling position is the target, and
otherwise the next scrolling date is `t + 1`.  The result depends on the last
clock value only, not on the calls made before. -/
theorem traversal_linear (ops : MovementOps) (map0 : Map) (cam0 : Camera)
    (sep : Separator) (t0 : Nat) (frames : List (Map × Nat)) (mapt : Map) (t : Nat)
    (hfix : cam0.fixed_on_hero = true) (ht0 : 0 < t0)
    (hd : 0 < scroll_dimension sep cam0)
    (hbound : (t0 : Int) + scroll_dimension sep cam0 < (UINT32_SIZE : Int))
    (hmono : List.Chain (fun a b => a ≤ b) t0 (frames.map Prod.snd ++ [t]))
    (hclock : ∀ f ∈ frames ++ [(mapt, t)], f.2 < UINT32_SIZE) :
    ∃ cam', run_updates ops (frames ++ [(mapt, t)])
          (traverse_separator map0 sep t0 cam0).1 = some cam'
      ∧ cam'.separator_scrolling_position = cam0.position.add_xy
          (min ((t : Int) - t0 + 1) (scroll_dimension sep cam0)
            * (traverse_separator map0 sep t0 cam0).1.separator_scrolling_dx)
          (min ((t : Int) - t0 + 1) (scroll_dimension sep cam0)
            * (traverse_separator map0 sep t0 cam0).1.separator_scrolling_dy)
      ∧ cam'.separator_target_position
          = (traverse_separator map0 sep t0 cam0).1.separator_target_position
      ∧ (cam'.separator_next_scrolling_date = 0
          ↔ (t0 : Int) + scroll_dimension sep cam0 - 1 ≤ t)
      ∧ ((t0 : Int) + scroll_dimension sep cam0 - 1 ≤ t →
          cam'.separator_scrolling_position = cam'.separator_target_position)
      ∧ ((t : Int) < t0 + scroll_dimension sep cam0 - 1 →
          cam'.separator_next_scrolling_date = t + 1) := by
  obtain ⟨n, hn⟩ := Int.eq_ofNat_of_zero_le (le_of_lt hd)
  rw [hn] at hd hbound ⊢
  have hn0 : 0 < n := by omega
  have hu32 : ((UINT32_SIZE : Nat) : Int) = 4294967296 := by simp [UINT32_SIZE]
  have hbound' : t0 + n < UINT32_SIZE := by
    simp only [UINT32_SIZE]
    omega
  have hstart := traversing_start map0 sep t0 n cam0 hfix hn hn0 (by omega)
  obtain ⟨hT0, hunit⟩ := hstart
  have htt0 : t0 ≤ t := by
    have hmono' : List.Chain (· ≤ ·) t0 (frames.map Prod.snd ++ [t]) := hmono
    exact List.Chain.rel hmono' (by simp)
  have hk0 : min (t0 - 1 + 1 - t0) n = 0 := by omega
  obtain ⟨cam', hrun, hT⟩ := traversing_run_updates ops cam0.position _ _ t0 n hunit ht0
    hbound' mapt t frames (t0 - 1) _ (by omega) (by rw [hk0]; exact hT0)
    (List.Chain.imp' (fun _ _ hab => hab) (fun c (hc : t0 ≤ c) => by omega) hmono) hclock
  have hk : ((min (t + 1 - t0) n : Nat) : Int) = min ((t : Int) - t0 + 1) n := by omega
  obtain ⟨_, _, _, htarget, hpos, hdate⟩ := hT
  rw [hk] at hpos
  refine ⟨cam', hrun, hpos, htarget.trans hT0.2.2.2.1.symm, ?_, ?_, ?_⟩
  · rcases hdate with ⟨h1, h2⟩ | ⟨h1, h2⟩
    · exact ⟨fun _ => by omega, fun _ => h2⟩
    · exact ⟨fun h0 => by omega, fun _ => by omega⟩
  · intro hle
    rw [hpos, htarget]
    have : min ((t : Int) - t0 + 1) n = n := by omega
    rw [this]
  · intro hlt
    rcases hdate with ⟨h1, h2⟩ | ⟨h1, h2⟩
    · omega
    · omega

/-- Witness of C7: a 320x240 camera at (0, 0) starts traversing a vertical
separator at tick 5 with the hero on its left; updates at the ticks 5, 5, 7
and then 1000 (sparse) end at the target (320, 0) with the traversal over. -/
theorem traversal_linear_witness :
    ∃ cam', run_updates ⟨id, fun _ => false⟩
          ([(⟨⟨0, 0, 640, 480⟩, ⟨300, 100, 308, 113⟩, []⟩, 5),
            (⟨⟨0, 0, 640, 480⟩, ⟨301, 100, 309, 113⟩, []⟩, 5),
            (⟨⟨0, 0, 640, 480⟩, ⟨302, 100, 310, 113⟩, []⟩, 7)]
            ++ [(⟨⟨0, 0, 640, 480⟩, ⟨330, 100, 338, 113⟩, []⟩, 1000)])
          (traverse_separator ⟨⟨0, 0, 640, 480⟩, ⟨298, 100, 306, 113⟩, []⟩
            ⟨true, 312, 0, 16, 480, 320, 240⟩ 5 (create ⟨0, 0, 320, 240⟩)).1 = some cam'
      ∧ cam'.separator_scrolling_position = ⟨320, 0, 320, 240⟩
      ∧ cam'.separator_target_position = ⟨320, 0, 320, 240⟩
      ∧ cam'.separator_next_scrolling_date = 0 := by
  obtain ⟨cam', hrun, hpos, htarget, hdate, _, _⟩ := traversal_linear ⟨id, fun _ => false⟩
    ⟨⟨0, 0, 640, 480⟩, ⟨298, 100, 306, 113⟩, []⟩ (create ⟨0, 0, 320, 240⟩)
    ⟨true, 312, 0, 16, 480, 320, 240⟩ 5
    [(⟨⟨0, 0, 640, 480⟩, ⟨300, 100, 308, 113⟩, []⟩, 5),
      (⟨⟨0, 0, 640, 480⟩, ⟨301, 100, 309, 113⟩, []⟩, 5),
      (⟨⟨0, 0, 640, 480⟩, ⟨302, 100, 310, 113⟩, []⟩, 7)]
    ⟨⟨0, 0, 640, 480⟩, ⟨330, 100, 338, 113⟩, []⟩ 1000
    rfl (by decide) (by decide) (by decide) (by simp) (by decide)
  exact ⟨cam', hrun, hpos.trans (by decide), htarget.trans (by decide),
    hdate.mpr (by decide)⟩

/-- C8: after `traverse_separator` at a clock value `now` (a `uint32_t`), the
scrolling position is the previous position; for a horizontal separator the
step is (0, 1) and the target is the position shifted by `+height` in `y`
when the hero's center is above the separator's center, else (0, -1) and
`-height`; for a vertical separator the step is (1, 0) and the target is the
position shifted by `+width` in `x` when the hero's center is on the left of
the separator's center, else (-1, 0) and `-width`; the next scrolling date is
`now`; the hero is moved by `(2 * dx, 2 * dy)`; the position of the camera is
not changed. -/
theorem traverse_separator_effect (map : Map) (sep : Separator) (now : Nat) (cam : Camera)
    (hnow : now < UINT32_SIZE) :
    (traverse_separator map sep now cam).1.separator_scrolling_position = cam.position
    ∧ (sep.is_horizontal = true → map.hero.center_y < sep.center_y →
        (traverse_separator map sep now cam).1.separator_scrolling_dx = 0
        ∧ (traverse_separator map sep now cam).1.separator_scrolling_dy = 1
        ∧ (traverse_separator map sep now cam).1.separator_target_position
          = ⟨cam.position.x, cam.position.y + cam.position.height,
              cam.position.width, cam.position.height⟩)
    ∧ (sep.is_horizontal = true → ¬ map.hero.center_y < sep.center_y →
        (traverse_separator map sep now cam).1.separator_scrolling_dx = 0
        ∧ (traverse_separator map sep now cam).1.separator_scrolling_dy = -1
        ∧ (traverse_separator map sep now cam).1.separator_target_position
          = ⟨cam.position.x, cam.position.y - cam.position.height,
              cam.position.width, cam.position.height⟩)
    ∧ (sep.is_horizontal = false → map.hero.center_x < sep.center_x →
        (traverse_separator map sep now cam).1.separator_scrolling_dx = 1
        ∧ (traverse_separator map sep now cam).1.separator_scrolling_dy = 0
        ∧ (traverse_separator map sep now cam).1.separator_target_position
          = ⟨cam.position.x + cam.position.width, cam.position.y,
              cam.position.width, cam.position.height⟩)
    ∧ (sep.is_horizontal = false → ¬ map.hero.center_x < sep.center_x →
        (traverse_separator map sep now cam).1.separator_scrolling_dx = -1
        ∧ (traverse_separator map sep now cam).1.separator_scrolling_dy = 0
        ∧ (traverse_separator map sep now cam).1.separator_target_position
          = ⟨cam.position.x - cam.position.width, cam.position.y,
              cam.position.width, cam.position.height⟩)
    ∧ (traverse_separator map sep now cam).1.separator_next_scrolling_date = now
    ∧ (traverse_separator map sep now cam).2.hero.x
        = map.hero.x + 2 * (traverse_separator map sep now cam).1.separator_scrolling_dx
    ∧ (traverse_separator map sep now cam).2.hero.y
        = map.hero.y + 2 * (traverse_separator map sep now cam).1.separator_scrolling_dy
    ∧ (traverse_separator map sep now cam).1.position = cam.position := by
  refine ⟨rfl, ?_, ?_, ?_, ?_, Nat.mod_eq_of_lt hnow, rfl, rfl, rfl⟩
  · intro hh hc
    simp [traverse_separator, hh, hc, Rectangle.add_y, get_height, Rectangle.get_height]
  · intro hh hc
    simp [traverse_separator, hh, hc, Rectangle.add_y, get_height, Rectangle.get_height]
    rfl
  · intro hh hc
    simp [traverse_separator, hh, hc, Rectangle.add_x, get_width, Rectangle.get_width]
  · intro hh hc
    simp [traverse_separator, hh, hc, Rectangle.add_x, get_width, Rectangle.get_width]
    rfl

/-- Witness of C8: the hero, on the right of a vertical separator, makes a
320x240 camera at (320, 0) scroll to the left at the tick 77. -/
theorem traverse_separator_effect_witness :
    (traverse_separator ⟨⟨0, 0, 640, 480⟩, ⟨330, 100, 338, 113⟩, []⟩
        ⟨true, 312, 0, 16, 480, 320, 240⟩ 77
        { create ⟨0, 0, 320, 240⟩ with position := ⟨320, 0, 320, 240⟩ }).1.separator_scrolling_dx
      = -1
    ∧ (traverse_separator ⟨⟨0, 0, 640, 480⟩, ⟨330, 100, 338, 113⟩, []⟩
        ⟨true, 312, 0, 16, 480, 320, 240⟩ 77
        { create ⟨0, 0, 320, 240⟩ with position := ⟨320, 0, 320, 240⟩ }).1.separator_scrolling_dy
      = 0
    ∧ (traverse_separator ⟨⟨0, 0, 640, 480⟩, ⟨330, 100, 338, 113⟩, []⟩
        ⟨true, 312, 0, 16, 480, 320, 240⟩ 77
        { create ⟨0, 0, 320, 240⟩ with position := ⟨320, 0, 320, 240⟩ }).1.separator_target_position
      = ⟨0, 0, 320, 240⟩
    ∧ (traverse_separator ⟨⟨0, 0, 640, 480⟩, ⟨330, 100, 338, 113⟩, []⟩
        ⟨true, 312, 0, 16, 480, 320, 240⟩ 77
        { create ⟨0, 0, 320, 240⟩ with position := ⟨320, 0, 320, 240⟩ }).1.separator_next_scrolling_date
      = 77 :=
  have h := traverse_separator_effect ⟨⟨0, 0, 640, 480⟩, ⟨330, 100, 338, 113⟩, []⟩
    ⟨true, 312, 0, 16, 480, 320, 240⟩ 77
    { create ⟨0, 0, 320, 240⟩ with position := ⟨320, 0, 320, 240⟩ } (by decide)
  ⟨(h.2.2.2.2.1 rfl (by decide)).1, (h.2.2.2.2.1 rfl (by decide)).2.1,
    (h.2.2.2.2.1 rfl (by decide)).2.2, h.2.2.2.2.2.1⟩

/-- C9: `move` creates a movement whose target is
`(min (max tx (w/2)) (W - w/2), min (max ty (h/2)) (H - h/2))` (divisions
rounded toward zero), whose speed is the speed of the camera and whose start
point is the center `(position.x + w/2, position.y + h/2)` of the camera; in
particular a 400x240 camera on an 800x480 map asked to move to (1000, 1000)
targets (600, 360). -/
theorem move_target (map : Map) (cam : Camera) (tx ty : Int) :
    (move map cam tx ty).movement = some
      { target_x := min (max tx (Int.tdiv cam.position.width 2))
          (map.location.width - Int.tdiv cam.position.width 2)
        target_y := min (max ty (Int.tdiv cam.position.height 2))
          (map.location.height - Int.tdiv cam.position.height 2)
        speed := cam.speed
        ignore_obstacles := true
        x := cam.position.x + Int.tdiv cam.position.width 2
        y := cam.position.y + Int.tdiv cam.position.height 2 }
    ∧ (cam.position.width = 400 → cam.position.height = 240 →
        map.location.width = 800 → map.location.height = 480 →
        (move map cam 1000 1000).movement.map (fun m => (m.target_x, m.target_y))
          = some (600, 360)) := by
  refine ⟨rfl, ?_⟩
  intro h1 h2 h3 h4
  simp only [move, get_width, get_height, Rectangle.get_width, Rectangle.get_height,
    h1, h2, h3, h4, Option.map]
  decide

/-- Witness of C9: the example of the spec, from the camera position
(0, 0). -/
theorem move_target_witness :
    (move ⟨⟨0, 0, 800, 480⟩, ⟨92, 87, 100, 100⟩, []⟩ (create ⟨0, 0, 400, 240⟩)
        1000 1000).movement.map (fun m => (m.target_x, m.target_y)) = some (600, 360) :=
  (move_target ⟨⟨0, 0, 800, 480⟩, ⟨92, 87, 100, 100⟩, []⟩ (create ⟨0, 0, 400, 240⟩)
    1000 1000).2 rfl rfl rfl rfl

/-- C10 (as the spec states it, refuted): a camera of odd width 321 on a
640x480 map, asked to move to (1000, 1000), targets the center (480, 360);
when the movement reaches it `update_moving` sets the position to
(320, 240), whose right edge `320 + 321 = 641` is outside the map. -/
theorem move_target_viewport_overflows :
    (create ⟨0, 0, 321, 240⟩).position.width ≤ (⟨0, 0, 640, 480⟩ : Rectangle).width
    ∧ (create ⟨0, 0, 321, 240⟩).position.height ≤ (⟨0, 0, 640, 480⟩ : Rectangle).height
    ∧ (update_moving
          ⟨fun m => { m with x := m.target_x, y := m.target_y }, fun _ => true⟩
          (move ⟨⟨0, 0, 640, 480⟩, ⟨92, 87, 100, 100⟩, []⟩ (create ⟨0, 0, 321, 240⟩)
            1000 1000)).map (fun r => r.1.position) = some ⟨320, 240, 321, 240⟩
    ∧ ¬ ((320 : Int) + 321 ≤ (⟨0, 0, 640, 480⟩ : Rectangle).width) := by
  decide

/-- C10 (amended): when the width and the height of the camera are even and
the map is at least as large as the camera on both axes, the position that
`update_moving` assigns when the movement created by `move` reaches its
target lies within the map: `0 ≤ x`, `x + width ≤ map_width`, `0 ≤ y`,
`y + height ≤ map_height`. -/
theorem move_target_viewport_within_map (ops : MovementOps) (map : Map) (cam : Camera)
    (tx ty : Int)
    (hw : cam.position.width ≤ map.location.width)
    (hh : cam.position.height ≤ map.location.height)
    (hweven : 2 ∣ cam.position.width) (hheven : 2 ∣ cam.position.height)
    (hreach : ∀ m, (move map cam tx ty).movement = some m →
      (ops.update m).x = m.target_x ∧ (ops.update m).y = m.target_y) :
    ∃ r, update_moving ops (move map cam tx ty) = some r
      ∧ 0 ≤ r.1.position.x
      ∧ r.1.position.x + r.1.position.width ≤ map.location.width
      ∧ 0 ≤ r.1.position.y
      ∧ r.1.position.y + r.1.position.height ≤ map.location.height := by
  obtain ⟨hx, hy⟩ := hreach _ rfl
  obtain ⟨a, ha⟩ := hweven
  obtain ⟨b, hb⟩ := hheven
  have ha2 : Int.tdiv cam.position.width 2 = a := by
    rw [ha]
    exact Int.mul_tdiv_cancel_left a (by decide)
  have hb2 : Int.tdiv cam.position.height 2 = b := by
    rw [hb]
    exact Int.mul_tdiv_cancel_left b (by decide)
  obtain ⟨r, hr, hpos⟩ := update_moving_position ops (move map cam tx ty) _ rfl rfl
  refine ⟨r, hr, ?_⟩
  rw [hpos]
  simp only [move, get_width, get_height, Rectangle.get_width, Rectangle.get_height,
    ha2, hb2] at hx hy ⊢
  rw [hx, hy]
  have hw2 : cam.position.width = 2 * a := ha
  have hh2 : cam.position.height = 2 * b := hb
  refine ⟨?_, ?_, ?_, ?_⟩ <;> omega

/-- Witness of C10 (amended): a 320x240 camera on a 640x480 map asked to move
to (1000, -50), with a movement that reaches its target at its first update. -/
theorem move_target_viewport_within_map_witness :
    ∃ r, update_moving
          ⟨fun m => { m with x := m.target_x, y := m.target_y }, fun _ => true⟩
          (move ⟨⟨0, 0, 640, 480⟩, ⟨92, 87, 100, 100⟩, []⟩ (create ⟨0, 0, 320, 240⟩)
            1000 (-50)) = some r
      ∧ 0 ≤ r.1.position.x ∧ r.1.position.x + r.1.position.width ≤ 640
      ∧ 0 ≤ r.1.position.y ∧ r.1.position.y + r.1.position.height ≤ 480 :=
  move_target_viewport_within_map
    ⟨fun m => { m with x := m.target_x, y := m.target_y }, fun _ => true⟩
    ⟨⟨0, 0, 640, 480⟩, ⟨92, 87, 100, 100⟩, []⟩ (create ⟨0, 0, 320, 240⟩) 1000 (-50)
    (by decide) (by decide) (by decide) (by decide)
    (fun m hm => by
      have : m = _ := (Option.some.inj hm).symm
      subst this
      exact ⟨rfl, rfl⟩)

/-- C11 (the code departs from the claim): for every camera state `move`
leaves the camera in the seeking mode with the new movement in place of the
previous one, but it does not write `restoring`: called after `restore`, it
leaves the flag set.  On a 320x240 camera, `restore` then `move(500, 300)`
then an `update` in which the movement finishes goes back to the
fixed-on-hero mode and sends `map_on_camera_back`, not
`notify_camera_reached_target`. -/
theorem move_after_restore_keeps_restoring (map : Map) (cam : Camera) (tx ty : Int) :
    (move map cam tx ty).fixed_on_hero = false
    ∧ (∃ m, (move map cam tx ty).movement = some m
        ∧ m.x = cam.position.x + Int.tdiv cam.position.width 2
        ∧ m.y = cam.position.y + Int.tdiv cam.position.height 2)
    ∧ (move map cam tx ty).restoring = cam.restoring
    ∧ (move map (restore map cam) tx ty).restoring = true
    ∧ (run_calls ⟨fun m => { m with x := m.target_x, y := m.target_y }, fun _ => true⟩
        [(⟨⟨0, 0, 640, 480⟩, ⟨92, 87, 100, 100⟩, []⟩, Call.restore),
          (⟨⟨0, 0, 640, 480⟩, ⟨92, 87, 100, 100⟩, []⟩, Call.move 500 300),
          (⟨⟨0, 0, 640, 480⟩, ⟨92, 87, 100, 100⟩, []⟩, Call.update 3)]
        (create ⟨0, 0, 320, 240⟩)).map (fun r => (r.1.fixed_on_hero, r.2))
      = some (true, [Notification.map_on_camera_back]) :=
  ⟨rfl, ⟨_, rfl, rfl, rfl⟩, rfl, rfl, by decide⟩

/-- C12: in the seeking mode with a movement `m`, a call of `update` in which
the movement reports finished (after its own update) discards the movement
and, if `restoring` is set, clears it, goes to the fixed-on-hero mode and
sends exactly `map_on_camera_back`; if `restoring` is not set, it stays in
the seeking mode and sends exactly `notify_camera_reached_target`.  When the
movement is not finished, no notification is sent, the mode and `restoring`
are unchanged and the movement is kept. -/
theorem update_seek_finished (ops : MovementOps) (map : Map) (now : Nat) (cam : Camera)
    (m : TargetMovement)
    (hfix : cam.fixed_on_hero = false) (hm : cam.movement = some m) :
    (ops.is_finished (ops.update m) = true → cam.restoring = true →
      ∃ c, update ops map now cam = some (c, [Notification.map_on_camera_back])
        ∧ c.movement = none ∧ c.restoring = false ∧ c.fixed_on_hero = true)
    ∧ (ops.is_finished (ops.update m) = true → cam.restoring = false →
      ∃ c, update ops map now cam = some (c, [Notification.notify_camera_reached_target])
        ∧ c.movement = none ∧ c.restoring = false ∧ c.fixed_on_hero = false)
    ∧ (ops.is_finished (ops.update m) = false →
      ∃ c, update ops map now cam = some (c, [])
        ∧ c.movement = some (ops.update m) ∧ c.restoring = cam.restoring
        ∧ c.fixed_on_hero = false) := by
  have h := update_seek ops map now cam m hfix hm
  refine ⟨?_, ?_, ?_⟩
  · intro hf hr
    rw [if_pos hf, if_pos hr] at h
    exact ⟨_, h, rfl, rfl, rfl⟩
  · intro hf hr
    rw [if_pos hf, if_neg (by simp [hr])] at h
    exact ⟨_, h, rfl, hr, hfix⟩
  · intro hf
    rw [if_neg (by simp [hf])] at h
    exact ⟨_, h, rfl, rfl, hfix⟩

/-- Witness of C12: a restoring seek that finishes at its first update. -/
theorem update_seek_finished_witness :
    ∃ c, update ⟨fun m => { m with x := m.target_x, y := m.target_y }, fun _ => true⟩
        ⟨⟨0, 0, 640, 480⟩, ⟨92, 87, 100, 100⟩, []⟩ 3
        (restore ⟨⟨0, 0, 640, 480⟩, ⟨92, 87, 100, 100⟩, []⟩ (create ⟨0, 0, 320, 240⟩))
          = some (c, [Notification.map_on_camera_back])
      ∧ c.movement = none ∧ c.restoring = false ∧ c.fixed_on_hero = true :=
  (update_seek_finished ⟨fun m => { m with x := m.target_x, y := m.target_y }, fun _ => true⟩
    ⟨⟨0, 0, 640, 480⟩, ⟨92, 87, 100, 100⟩, []⟩ 3
    (restore ⟨⟨0, 0, 640, 480⟩, ⟨92, 87, 100, 100⟩, []⟩ (create ⟨0, 0, 320, 240⟩))
    _ rfl rfl).1 rfl rfl

/-- C14: with no movement and no traversal in progress, and the same map
(hero, separators, bounds) for both calls, two consecutive calls of `update`
(at any clock values) give the same position; the second call changes
nothing. -/
theorem update_idempotent (ops : MovementOps) (map : Map) (now1 now2 : Nat) (cam : Camera)
    (hm : cam.movement = none) (hd : cam.separator_next_scrolling_date = 0) :
    ∃ c1 c2, update ops map now1 cam = some (c1, [])
      ∧ update ops map now2 c1 = some (c2, [])
      ∧ c2.position = c1.position ∧ c2 = c1 := by
  cases hfix : cam.fixed_on_hero
  · exact ⟨cam, cam, update_idle ops map now1 cam hfix hm,
      update_idle ops map now2 cam hfix hm, rfl, rfl⟩
  · refine ⟨_, _, by simp only [update, update_fixed_on_hero, hfix, hd, if_true, Option.map]; rfl,
      by simp only [update, update_fixed_on_hero, hfix, hd, if_true, Option.map]; rfl, ?_, ?_⟩
    · simp [Rectangle.set_xy, get_width, get_height, Rectangle.get_width,
        Rectangle.get_height]
    · simp [Rectangle.set_xy, get_width, get_height, Rectangle.get_width,
        Rectangle.get_height]

/-- Witness of C14: a 320x240 camera following the hero near a vertical
separator. -/
theorem update_idempotent_witness :
    ∃ c1 c2, update ⟨id, fun _ => false⟩
          ⟨⟨0, 0, 640, 480⟩, ⟨292, 187, 300, 200⟩, [⟨true, 312, 0, 16, 480, 320, 240⟩]⟩ 4
          (create ⟨0, 0, 320, 240⟩) = some (c1, [])
      ∧ update ⟨id, fun _ => false⟩
          ⟨⟨0, 0, 640, 480⟩, ⟨292, 187, 300, 200⟩, [⟨true, 312, 0, 16, 480, 320, 240⟩]⟩ 9
          c1 = some (c2, [])
      ∧ c2.position = c1.position ∧ c2 = c1 :=
  update_idempotent ⟨id, fun _ => false⟩
    ⟨⟨0, 0, 640, 480⟩, ⟨292, 187, 300, 200⟩, [⟨true, 312, 0, 16, 480, 320, 240⟩]⟩ 4 9
    (create ⟨0, 0, 320, 240⟩) rfl rfl

/-- C13: for every camera state (in particular one with a seek started by
`move` in progress), `restore` replaces the movement by one that starts at the
center of the camera and targets the clamped center of the hero, and any
number of `update` calls after it (whatever the movement does and the maps of
the frames are) sends either nothing or `map_on_camera_back` once:
`notify_camera_reached_target` is never sent. -/
theorem restore_never_reaches_target (ops : MovementOps) (map : Map) (cam : Camera)
    (frames : List (Map × Nat)) :
    (restore map cam).movement = some
      { target_x := min (max map.hero.center_x (Int.tdiv cam.position.width 2))
          (map.location.width - Int.tdiv cam.position.width 2)
        target_y := min (max map.hero.center_y (Int.tdiv cam.position.height 2))
          (map.location.height - Int.tdiv cam.position.height 2)
        speed := cam.speed
        ignore_obstacles := true
        x := cam.position.x + Int.tdiv cam.position.width 2
        y := cam.position.y + Int.tdiv cam.position.height 2 }
    ∧ ∃ r, run_calls ops (update_calls frames) (restore map cam) = some r
        ∧ (r.2 = [] ∨ r.2 = [Notification.map_on_camera_back])
        ∧ Notification.notify_camera_reached_target ∉ r.2 := by
  refine ⟨rfl, ?_⟩
  obtain ⟨r, hr, hlog⟩ := run_updates_restoring ops frames (restore map cam) _ rfl rfl rfl
  refine ⟨r, hr, hlog, ?_⟩
  rcases hlog with h | h <;> rw [h] <;> simp

/-- C15: after every sequence of `update`, `move`, `move(entity)`, `restore`,
`set_speed` and `traverse_separator` calls from the construction (whatever
the maps, the clock values and the behaviour of the movement), the sequence
returns and a present movement implies that the camera is not fixed on the
hero. -/
theorem movement_implies_seeking (ops : MovementOps) (quest_size : Rectangle)
    (calls : List (Map × Call)) :
    ∃ r, run_calls ops calls (create quest_size) = some r
      ∧ (r.1.movement ≠ none → r.1.fixed_on_hero = false) := by
  apply run_calls_invariant ops (fun cam => cam.movement ≠ none → cam.fixed_on_hero = false)
  · intro map c cam r hP hcall
    cases c with
    | update now =>
      simp only [call] at hcall
      cases hfix : cam.fixed_on_hero
      · cases hm : cam.movement with
        | none =>
          rw [update_idle ops map now cam hfix hm] at hcall
          cases hcall
          exact fun _ => hfix
        | some m =>
          rw [update_seek ops map now cam m hfix hm] at hcall
          cases hcall
          by_cases hf : ops.is_finished (ops.update m) = true
          · by_cases hr : cam.restoring = true
            · rw [if_pos hf, if_pos hr]
              exact fun h => absurd rfl h
            · rw [if_pos hf, if_neg hr]
              exact fun h => absurd rfl h
          · rw [if_neg hf]
            exact fun _ => hfix
      · obtain ⟨c1, h1, _, _, hmov, _⟩ := update_fixed ops map now cam hfix
        rw [h1] at hcall
        cases hcall
        intro h
        rw [hmov] at h
        rw [hP h] at hfix
        cases hfix
    | move x y =>
      cases hcall
      exact fun _ => rfl
    | move_entity x y =>
      cases hcall
      exact fun _ => rfl
    | restore =>
      cases hcall
      exact fun _ => rfl
    | set_speed v =>
      cases hcall
      exact hP
    | traverse_separator sep now =>
      cases hcall
      exact hP
  · exact fun h => absurd rfl h

/-- Witness of C15: `move`, an `update` in which the movement does not finish,
`traverse_separator` and `set_speed` leave a movement and the seeking mode. -/
theorem movement_implies_seeking_witness :
    ∃ r, run_calls ⟨id, fun _ => false⟩
        [(⟨⟨0, 0, 640, 480⟩, ⟨92, 87, 100, 100⟩, []⟩, Call.move 500 300),
          (⟨⟨0, 0, 640, 480⟩, ⟨92, 87, 100, 100⟩, []⟩, Call.update 3),
          (⟨⟨0, 0, 640, 480⟩, ⟨92, 87, 100, 100⟩, []⟩,
            Call.traverse_separator ⟨true, 312, 0, 16, 480, 320, 240⟩ 5),
          (⟨⟨0, 0, 640, 480⟩, ⟨92, 87, 100, 100⟩, []⟩, Call.set_speed 200)]
        (create ⟨0, 0, 320, 240⟩) = some r
      ∧ r.1.movement ≠ none ∧ r.1.fixed_on_hero = false := by
  obtain ⟨r, hr, h⟩ := movement_implies_seeking ⟨id, fun _ => false⟩ ⟨0, 0, 320, 240⟩
    [(⟨⟨0, 0, 640, 480⟩, ⟨92, 87, 100, 100⟩, []⟩, Call.move 500 300),
      (⟨⟨0, 0, 640, 480⟩, ⟨92, 87, 100, 100⟩, []⟩, Call.update 3),
      (⟨⟨0, 0, 640, 480⟩, ⟨92, 87, 100, 100⟩, []⟩,
        Call.traverse_separator ⟨true, 312, 0, 16, 480, 320, 240⟩ 5),
      (⟨⟨0, 0, 640, 480⟩, ⟨92, 87, 100, 100⟩, []⟩, Call.set_speed 200)]
  have hm : r.1.movement ≠ none := by
    have : r = _ := Option.some.inj (hr.symm.trans rfl)
    rw [this]
    decide
  exact ⟨r, hr, hm, h hm⟩

/-- C16 (as the spec states it, refuted): from the construction of a 320x240
camera, `move` followed by `traverse_separator` at the tick 5, and
`traverse_separator` at the tick 5 followed by `move`, both end with a
traversal in progress (`separator_next_scrolling_date = 5`) in the seeking
mode (`fixed_on_hero = false`). -/
theorem traversal_in_seeking_mode :
    (run_calls ⟨id, fun _ => false⟩
        [(⟨⟨0, 0, 640, 480⟩, ⟨92, 87, 100, 100⟩, []⟩, Call.move 500 300),
          (⟨⟨0, 0, 640, 480⟩, ⟨92, 87, 100, 100⟩, []⟩,
            Call.traverse_separator ⟨true, 312, 0, 16, 480, 320, 240⟩ 5)]
        (create ⟨0, 0, 320, 240⟩)).map
          (fun r => (r.1.separator_next_scrolling_date, r.1.fixed_on_hero))
      = some (5, false)
    ∧ (run_calls ⟨id, fun _ => false⟩
        [(⟨⟨0, 0, 640, 480⟩, ⟨92, 87, 100, 100⟩, []⟩,
            Call.traverse_separator ⟨true, 312, 0, 16, 480, 320, 240⟩ 5),
          (⟨⟨0, 0, 640, 480⟩, ⟨92, 87, 100, 100⟩, []⟩, Call.move 500 300)]
        (create ⟨0, 0, 320, 240⟩)).map
          (fun r => (r.1.separator_next_scrolling_date, r.1.fixed_on_hero))
      = some (5, false) := by
  decide

/-- C16 (amended): after every sequence of `update`, `move`, `move(entity)`,
`restore`, `set_speed` and `traverse_separator` calls from the construction
in which `traverse_separator` is called in the fixed-on-hero mode only and
`move`, `move(entity)` and `restore` are called only while no traversal is in
progress, a traversal in progress implies the fixed-on-hero mode. -/
theorem traversal_implies_fixed (ops : MovementOps) (quest_size : Rectangle)
    (calls : List (Map × Call))
    (hall : calls_allowed ops calls (create quest_size) = true) :
    ∃ r, run_calls ops calls (create quest_size) = some r
      ∧ (r.1.separator_next_scrolling_date ≠ 0 → r.1.fixed_on_hero = true) := by
  apply run_calls_allowed_invariant ops
    (fun cam => cam.separator_next_scrolling_date ≠ 0 → cam.fixed_on_hero = true) _ _ _ _ hall
  · intro map c cam r hP hc hcall
    cases c with
    | update now =>
      simp only [call] at hcall
      cases hfix : cam.fixed_on_hero
      · have hd : cam.separator_next_scrolling_date = 0 := by
          by_contra hne
          rw [hP hne] at hfix
          cases hfix
        cases hm : cam.movement with
        | none =>
          rw [update_idle ops map now cam hfix hm] at hcall
          cases hcall
          exact fun h => absurd hd h
        | some m =>
          rw [update_seek ops map now cam m hfix hm] at hcall
          cases hcall
          by_cases hf : ops.is_finished (ops.update m) = true
          · by_cases hr : cam.restoring = true
            · rw [if_pos hf, if_pos hr]
              exact fun _ => rfl
            · rw [if_pos hf, if_neg hr]
              exact fun h => absurd hd h
          · rw [if_neg hf]
            exact fun h => absurd hd h
      · obtain ⟨c1, h1, _, hfix1, _⟩ := update_fixed ops map now cam hfix
        rw [h1] at hcall
        cases hcall
        exact fun _ => hfix1
    | move x y =>
      cases hcall
      have hd : cam.separator_next_scrolling_date = 0 := by simpa [call_allowed] using hc
      exact fun h => absurd hd h
    | move_entity x y =>
      cases hcall
      have hd : cam.separator_next_scrolling_date = 0 := by simpa [call_allowed] using hc
      exact fun h => absurd hd h
    | restore =>
      cases hcall
      have hd : cam.separator_next_scrolling_date = 0 := by simpa [call_allowed] using hc
      exact fun h => absurd hd h
    | set_speed v =>
      cases hcall
      exact hP
    | traverse_separator sep now =>
      cases hcall
      have hfix : cam.fixed_on_hero = true := by simpa [call_allowed] using hc
      exact fun _ => hfix
  · exact fun h => absurd rfl h

/-- Witness of C16 (amended): a traversal started in the fixed-on-hero mode
and updated twice. -/
theorem traversal_implies_fixed_witness :
    ∃ r, run_calls ⟨id, fun _ => false⟩
        [(⟨⟨0, 0, 640, 480⟩, ⟨92, 87, 100, 100⟩, []⟩,
            Call.traverse_separator ⟨true, 312, 0, 16, 480, 320, 240⟩ 5),
          (⟨⟨0, 0, 640, 480⟩, ⟨94, 87, 102, 100⟩, []⟩, Call.update 5),
          (⟨⟨0, 0, 640, 480⟩, ⟨95, 87, 103, 100⟩, []⟩, Call.update 9)]
        (create ⟨0, 0, 320, 240⟩) = some r
      ∧ (r.1.separator_next_scrolling_date ≠ 0 → r.1.fixed_on_hero = true) :=
  traversal_implies_fixed ⟨id, fun _ => false⟩ ⟨0, 0, 320, 240⟩
    [(⟨⟨0, 0, 640, 480⟩, ⟨92, 87, 100, 100⟩, []⟩,
        Call.traverse_separator ⟨true, 312, 0, 16, 480, 320, 240⟩ 5),
      (⟨⟨0, 0, 640, 480⟩, ⟨94, 87, 102, 100⟩, []⟩, Call.update 5),
      (⟨⟨0, 0, 640, 480⟩, ⟨95, 87, 103, 100⟩, []⟩, Call.update 9)]
    (by decide)

/-- C17: every sequence of `update`, `move`, `move(entity)`, `restore`,
`set_speed` and `traverse_separator` calls returns and leaves the width and
the height of the position as they were; from the construction they are the
width and the height of the quest size. -/
theorem position_size_constant (ops : MovementOps) (calls : List (Map × Call))
    (cam : Camera) (quest_size : Rectangle) :
    (∃ r, run_calls ops calls cam = some r
      ∧ r.1.position.width = cam.position.width
      ∧ r.1.position.height = cam.position.height)
    ∧ (∃ r, run_calls ops calls (create quest_size) = some r
      ∧ r.1.position.width = quest_size.width
      ∧ r.1.position.height = quest_size.height) := by
  have key : ∀ cam0 : Camera, ∃ r, run_calls ops calls cam0 = some r
      ∧ r.1.position.width = cam0.position.width
      ∧ r.1.position.height = cam0.position.height := by
    intro cam0
    apply run_calls_invariant ops (fun c => c.position.width = cam0.position.width
      ∧ c.position.height = cam0.position.height)
    · intro map c cam1 r hP hcall
      cases c with
      | update now =>
        simp only [call] at hcall
        cases hfix : cam1.fixed_on_hero
        · cases hm : cam1.movement with
          | none =>
            rw [update_idle ops map now cam1 hfix hm] at hcall
            cases hcall
            exact hP
          | some m =>
            rw [update_seek ops map now cam1 m hfix hm] at hcall
            cases hcall
            by_cases hf : ops.is_finished (ops.update m) = true
            · by_cases hr : cam1.restoring = true
              · rw [if_pos hf, if_pos hr]
                exact hP
              · rw [if_pos hf, if_neg hr]
                exact hP
            · rw [if_neg hf]
              exact hP
        · obtain ⟨c1, h1, _, _, _, _, _, hw, hh, _⟩ := update_fixed ops map now cam1 hfix
          rw [h1] at hcall
          cases hcall
          exact ⟨hw.trans hP.1, hh.trans hP.2⟩
      | move x y =>
        cases hcall
        exact hP
      | move_entity x y =>
        cases hcall
        exact hP
      | restore =>
        cases hcall
        exact hP
      | set_speed v =>
        cases hcall
        exact hP
      | traverse_separator sep now =>
        cases hcall
        exact hP
    · exact ⟨rfl, rfl⟩
  exact ⟨key cam, key (create quest_size)⟩

/-- C18: when the camera is not fixed on the hero and has no movement (the
state left by a non-restoring seek that has completed), every call of
`update` returns the same camera state and sends no notification, so does
every sequence of `update` calls, and `is_moving` is true. -/
theorem parked_camera_unchanged (ops : MovementOps) (cam : Camera)
    (frames : List (Map × Nat))
    (hfix : cam.fixed_on_hero = false) (hm : cam.movement = none) :
    (∀ map now, update ops map now cam = some (cam, []))
    ∧ run_calls ops (update_calls frames) cam = some (cam, [])
    ∧ is_moving cam = true :=
  ⟨fun map now => update_idle ops map now cam hfix hm,
    run_updates_idle ops frames cam hfix hm, by simp [is_moving, hfix]⟩

/-- Witness of C18: a seek started by `move` finishes at the first `update`,
which sends `notify_camera_reached_target`; two more updates return the same
state and send nothing. -/
theorem parked_camera_unchanged_witness :
    (run_calls ⟨fun m => { m with x := m.target_x, y := m.target_y }, fun _ => true⟩
        [(⟨⟨0, 0, 640, 480⟩, ⟨92, 87, 100, 100⟩, []⟩, Call.move 500 300),
          (⟨⟨0, 0, 640, 480⟩, ⟨92, 87, 100, 100⟩, []⟩, Call.update 3)]
        (create ⟨0, 0, 320, 240⟩)
      = some ({ create ⟨0, 0, 320, 240⟩ with
          position := ⟨320, 180, 320, 240⟩, fixed_on_hero := false },
        [Notification.notify_camera_reached_target]))
    ∧ run_calls ⟨fun m => { m with x := m.target_x, y := m.target_y }, fun _ => true⟩
        (update_calls [(⟨⟨0, 0, 640, 480⟩, ⟨93, 87, 101, 100⟩, []⟩, 4),
          (⟨⟨0, 0, 640, 480⟩, ⟨94, 87, 102, 100⟩, []⟩, 5)])
        { create ⟨0, 0, 320, 240⟩ with
          position := ⟨320, 180, 320, 240⟩, fixed_on_hero := false }
      = some ({ create ⟨0, 0, 320, 240⟩ with
          position := ⟨320, 180, 320, 240⟩, fixed_on_hero := false }, []) :=
  ⟨by decide,
    (parked_camera_unchanged
      ⟨fun m => { m with x := m.target_x, y := m.target_y }, fun _ => true⟩
      { create ⟨0, 0, 320, 240⟩ with
        position := ⟨320, 180, 320, 240⟩, fixed_on_hero := false }
      [(⟨⟨0, 0, 640, 480⟩, ⟨93, 87, 101, 100⟩, []⟩, 4),
        (⟨⟨0, 0, 640, 480⟩, ⟨94, 87, 102, 100⟩, []⟩, 5)] rfl rfl).2.1⟩

/-- C19: resolving the separators after exchanging `x` with `y` and the width
with the height in the raw rectangle and in every separator (vertical
separators become horizontal and conversely, the order of the registry being
kept) gives the result of the original resolution with `x` and `y`
exchanged. -/
theorem resolve_separators_transpose (w h x y : Int) (seps : List Separator) :
    resolve_separators h w y x (seps.map transpose_separator)
      = ((resolve_separators w h x y seps).2, (resolve_separators w h x y seps).1) := by
  unfold resolve_separators
  simp only [first_scan_transpose, must_adjust_transpose]
  rfl

/-- C20: for every camera state and every clock value `now` (a `uint32_t`),
the catch-up loop stops: with the fuel `now + 1 - date` used by
`update_fixed_on_hero` the condition of the `while` is false at the end, and
more fuel changes neither the result nor the number of iterations.  The loop
makes at most `now + 1 - date` iterations, none when the date is zero or
after `now`, and, when the target is `r ≥ 1` steps ahead of the scrolling
position, at most `min (now + 1 - date) r` iterations.  Every state reached
from the construction with a positive quest size has no traversal in progress
or has its target `r ≥ 1` steps ahead. -/
theorem catch_up_loop_bounded (now : Nat) (cam : Camera) (hnow : now < UINT32_SIZE) :
    ¬ ((scroll_loop (now + 1 - cam.separator_next_scrolling_date) now
            cam).separator_next_scrolling_date ≠ 0
        ∧ now ≥ (scroll_loop (now + 1 - cam.separator_next_scrolling_date) now
            cam).separator_next_scrolling_date)
    ∧ (∀ extra,
        scroll_loop (now + 1 - cam.separator_next_scrolling_date + extra) now cam
          = scroll_loop (now + 1 - cam.separator_next_scrolling_date) now cam
        ∧ scroll_loop_iterations (now + 1 - cam.separator_next_scrolling_date + extra) now cam
          = scroll_loop_iterations (now + 1 - cam.separator_next_scrolling_date) now cam)
    ∧ (∀ fuel, scroll_loop_iterations fuel now cam
        ≤ now + 1 - cam.separator_next_scrolling_date)
    ∧ (cam.separator_next_scrolling_date = 0 ∨ now < cam.separator_next_scrolling_date →
        ∀ fuel, scroll_loop_iterations fuel now cam = 0)
    ∧ (∀ r : Nat, 1 ≤ r →
        cam.separator_target_position = cam.separator_scrolling_position.add_xy
          (r * cam.separator_scrolling_dx) (r * cam.separator_scrolling_dy) →
        ∀ fuel, scroll_loop_iterations fuel now cam
          ≤ min (now + 1 - cam.separator_next_scrolling_date) r)
    ∧ (∀ (ops : MovementOps) (quest_size : Rectangle) (calls : List (Map × Call)),
        0 < quest_size.width → 0 < quest_size.height →
        ∃ s, run_calls ops calls (create quest_size) = some s
          ∧ (s.1.separator_next_scrolling_date = 0
            ∨ ∃ r : Nat, 1 ≤ r ∧ s.1.separator_target_position
                = s.1.separator_scrolling_position.add_xy
                    (r * s.1.separator_scrolling_dx) (r * s.1.separator_scrolling_dy))) := by
  refine ⟨scroll_loop_exit _ now cam hnow (Or.inr (Nat.le_refl _)),
    fun extra => scroll_loop_fuel_irrelevant _ now extra cam hnow (Or.inr (Nat.le_refl _)),
    fun fuel => scroll_loop_iterations_le_ticks fuel now cam hnow,
    fun h fuel => scroll_loop_iterations_of_exit fuel now cam h, ?_,
    fun ops quest_size calls hw hh => run_calls_target_ahead ops quest_size hw hh calls⟩
  intro r hr htarget fuel
  exact Nat.le_min.mpr ⟨scroll_loop_iterations_le_ticks fuel now cam hnow,
    scroll_loop_iterations_le_remaining fuel now cam r hr htarget⟩

/-- Witness of C20: a traversal of 320 steps started at the tick 5 and updated
for the first time at the tick 20 makes 16 iterations; 316 ticks later the
remaining 304 steps bound the loop. -/
theorem catch_up_loop_bounded_witness :
    scroll_loop_iterations (20 + 1 - 5) 20
        { create ⟨0, 0, 320, 240⟩ with
          separator_scrolling_dx := 1
          separator_next_scrolling_date := 5
          separator_scrolling_position := ⟨0, 0, 320, 240⟩
          separator_target_position := ⟨320, 0, 320, 240⟩ } ≤ min (20 + 1 - 5) 320
    ∧ scroll_loop_iterations 500 336
        { create ⟨0, 0, 320, 240⟩ with
          separator_scrolling_dx := 1
          separator_next_scrolling_date := 21
          separator_scrolling_position := ⟨16, 0, 320, 240⟩
          separator_target_position := ⟨320, 0, 320, 240⟩ } ≤ min (336 + 1 - 21) 304 :=
  ⟨(catch_up_loop_bounded 20
      { create ⟨0, 0, 320, 240⟩ with
        separator_scrolling_dx := 1
        separator_next_scrolling_date := 5
        separator_scrolling_position := ⟨0, 0, 320, 240⟩
        separator_target_position := ⟨320, 0, 320, 240⟩ } (by decide)).2.2.2.2.1
      320 (by decide) (by decide) (20 + 1 - 5),
    (catch_up_loop_bounded 336
      { create ⟨0, 0, 320, 240⟩ with
        separator_scrolling_dx := 1
        separator_next_scrolling_date := 21
        separator_scrolling_position := ⟨16, 0, 320, 240⟩
        separator_target_position := ⟨320, 0, 320, 240⟩ } (by decide)).2.2.2.2.1
      304 (by decide) (by decide) 500⟩

/-- C21: in the fixed-on-hero mode with no traversal in progress, a camera of
positive width and height on a map at least as large as the camera, with the
center of the hero inside the map, gets a position that contains the center
of the hero: `position.x ≤ hero_x ≤ position.x + width` and
`position.y ≤ hero_y ≤ position.y + height`, whatever the separators; the
same holds for the coordinates resolved from the separators before the limits
of the map are applied. -/
theorem hero_stays_in_view (map : Map) (now : Nat) (cam : Camera)
    (hfix : cam.fixed_on_hero = true)
    (hdate : cam.separator_next_scrolling_date = 0)
    (hw : 0 < cam.position.width) (hh : 0 < cam.position.height)
    (hmw : cam.position.width ≤ map.location.width)
    (hmh : cam.position.height ≤ map.location.height)
    (hx0 : 0 ≤ map.hero.center_x) (hx1 : map.hero.center_x ≤ map.location.width)
    (hy0 : 0 ≤ map.hero.center_y) (hy1 : map.hero.center_y ≤ map.location.height) :
    (∃ c, update_fixed_on_hero map now cam = some c
      ∧ c.position.x ≤ map.hero.center_x
      ∧ map.hero.center_x ≤ c.position.x + c.position.width
      ∧ c.position.y ≤ map.hero.center_y
      ∧ map.hero.center_y ≤ c.position.y + c.position.height)
    ∧ ((resolve_separators cam.position.width cam.position.height
          (map.hero.center_x - Int.tdiv cam.position.width 2)
          (map.hero.center_y - Int.tdiv cam.position.height 2) map.separators).1
        ≤ map.hero.center_x
      ∧ map.hero.center_x
        ≤ (resolve_separators cam.position.width cam.position.height
          (map.hero.center_x - Int.tdiv cam.position.width 2)
          (map.hero.center_y - Int.tdiv cam.position.height 2) map.separators).1
          + cam.position.width
      ∧ (resolve_separators cam.position.width cam.position.height
          (map.hero.center_x - Int.tdiv cam.position.width 2)
          (map.hero.center_y - Int.tdiv cam.position.height 2) map.separators).2
        ≤ map.hero.center_y
      ∧ map.hero.center_y
        ≤ (resolve_separators cam.position.width cam.position.height
          (map.hero.center_x - Int.tdiv cam.position.width 2)
          (map.hero.center_y - Int.tdiv cam.position.height 2) map.separators).2
          + cam.position.height) := by
  have hres := resolve_separators_keeps_center cam.position.width cam.position.height
    (map.hero.center_x - Int.tdiv cam.position.width 2)
    (map.hero.center_y - Int.tdiv cam.position.height 2) hw hh map.separators
  have hcx : map.hero.center_x - Int.tdiv cam.position.width 2
      + Int.tdiv cam.position.width 2 = map.hero.center_x := by omega
  have hcy : map.hero.center_y - Int.tdiv cam.position.height 2
      + Int.tdiv cam.position.height 2 = map.hero.center_y := by omega
  rw [hcx, hcy] at hres
  refine ⟨⟨_, by simp only [update_fixed_on_hero, hfix, if_true]; rfl, ?_⟩,
    hres.1.1, hres.1.2, hres.2.1, hres.2.2⟩
  simp only [hdate, if_true, Rectangle.set_xy, get_width, get_height,
    Rectangle.get_width, Rectangle.get_height, clamp_to_map]
  rw [if_neg (by omega), if_neg (by omega)]
  obtain ⟨⟨h1, h2⟩, h3, h4⟩ := hres
  refine ⟨?_, ?_, ?_, ?_⟩ <;> omega

/-- Witness of C21: a 320x240 camera on a 640x480 map with two vertical
separators on both sides of the hero, centered at (160, 120). -/
theorem hero_stays_in_view_witness :
    ∃ c, update_fixed_on_hero
        ⟨⟨0, 0, 640, 480⟩, ⟨152, 107, 160, 120⟩,
          [⟨true, 92, 0, 16, 480, 100, 240⟩, ⟨true, 192, 0, 16, 480, 200, 240⟩]⟩ 0
        (create ⟨0, 0, 320, 240⟩) = some c
      ∧ c.position.x ≤ 160 ∧ 160 ≤ c.position.x + c.position.width
      ∧ c.position.y ≤ 120 ∧ 120 ≤ c.position.y + c.position.height :=
  (hero_stays_in_view
    ⟨⟨0, 0, 640, 480⟩, ⟨152, 107, 160, 120⟩,
      [⟨true, 92, 0, 16, 480, 100, 240⟩, ⟨true, 192, 0, 16, 480, 200, 240⟩]⟩ 0
    (create ⟨0, 0, 320, 240⟩) rfl rfl (by decide) (by decide) (by decide) (by decide)
    (by decide) (by decide) (by decide) (by decide)).1

/-- C22 (as the spec states it, refuted): for a 320x240 camera at the raw
corner (0, 0), a short vertical separator (line `x = 160`, y-extent
`[0, 32)`) and a short horizontal separator (line `y = 120`, x-extent
`[0, 32)`) are both active, the first scan adjusts both axes to (160, 120),
neither separator intersects the rectangle taken at the other adjusted value,
and the resolution returns the raw corner (0, 0). -/
theorem both_adjustments_discarded :
    separator_active 320 240 0 0 ⟨true, 152, 0, 16, 32, 160, 16⟩
    ∧ separator_active 320 240 0 0 ⟨false, 0, 112, 32, 16, 16, 120⟩
    ∧ (first_scan 320 240 0 0
        [⟨true, 152, 0, 16, 32, 160, 16⟩, ⟨false, 0, 112, 32, 16, 16, 120⟩]).adjusted_x = 160
    ∧ (first_scan 320 240 0 0
        [⟨true, 152, 0, 16, 32, 160, 16⟩, ⟨false, 0, 112, 32, 16, 16, 120⟩]).adjusted_y = 120
    ∧ resolve_separators 320 240 0 0
        [⟨true, 152, 0, 16, 32, 160, 16⟩, ⟨false, 0, 112, 32, 16, 16, 120⟩] = (0, 0) := by
  decide

/-- C22 (amended): when at least one separator is active on the raw rectangle
and all the active separators have the same orientation, the resolved
position differs from the raw one; when a vertical and a horizontal separator
are both active, the resolved position differs from the raw one exactly when
some active separator still intersects the rectangle taken at the adjusted
value of the other axis. -/
theorem resolution_constrains (w h x y : Int) (seps : List Separator) :
    ((∃ s ∈ seps, separator_active w h x y s) →
      ((∀ s ∈ seps, separator_active w h x y s → s.is_vertical = true)
        ∨ (∀ s ∈ seps, separator_active w h x y s → s.is_vertical = false)) →
      resolve_separators w h x y seps ≠ (x, y))
    ∧ ((∃ s ∈ seps, s.is_vertical = true ∧ separator_active w h x y s) →
      (∃ s ∈ seps, s.is_vertical = false ∧ separator_active w h x y s) →
      (resolve_separators w h x y seps ≠ (x, y)
        ↔ (∃ s ∈ seps, separator_active w h x y s
              ∧ still_intersects_x w h x (first_scan w h x y seps).adjusted_y s)
          ∨ (∃ s ∈ seps, separator_active w h x y s
              ∧ still_intersects_y w h y (first_scan w h x y seps).adjusted_x s))) := by
  constructor
  · rintro ⟨s, hs, hact⟩ hsame
    rcases hsame with hall | hall
    · have hx : (first_scan w h x y seps).adjusted_x ≠ x :=
        foldl_first_scan_adjusted_x_ne w h x y seps _ (Or.inr ⟨s, hs, hall s hs hact, hact⟩)
      have hy : (first_scan w h x y seps).adjusted_y = y :=
        foldl_first_scan_adjusted_y_of_none w h x y seps _ hall
      intro heq
      simp only [resolve_separators, must_adjust, hy, ne_eq, not_true_eq_false, and_false,
        if_false, if_true, Prod.mk.injEq, and_true] at heq
      exact hx heq
    · have hy : (first_scan w h x y seps).adjusted_y ≠ y :=
        foldl_first_scan_adjusted_y_ne w h x y seps _ (Or.inr ⟨s, hs, hall s hs hact, hact⟩)
      have hx : (first_scan w h x y seps).adjusted_x = x :=
        foldl_first_scan_adjusted_x_of_none w h x y seps _ hall
      intro heq
      simp only [resolve_separators, must_adjust, hx, ne_eq, not_true_eq_false, false_and,
        if_false, if_true, Prod.mk.injEq, true_and] at heq
      exact hy heq
  · rintro ⟨sv, hsv, hv, hav⟩ ⟨sh, hsh, hh, hah⟩
    have hx : (first_scan w h x y seps).adjusted_x ≠ x :=
      foldl_first_scan_adjusted_x_ne w h x y seps _ (Or.inr ⟨sv, hsv, hv, hav⟩)
    have hy : (first_scan w h x y seps).adjusted_y ≠ y :=
      foldl_first_scan_adjusted_y_ne w h x y seps _ (Or.inr ⟨sh, hsh, hh, hah⟩)
    rw [resolve_ne_raw_iff w h x y seps hx hy, must_adjust_fst w h x y seps hx hy,
      must_adjust_snd w h x y seps hx hy, first_scan_applied]
    simp only [List.mem_filter, decide_eq_true_eq, and_assoc]

/-- Witness of C22 (amended): one active vertical separator moves the
resolved corner of a 320x240 camera away from the raw corner (0, 0). -/
theorem resolution_constrains_witness :
    resolve_separators 320 240 0 0
        [⟨true, 152, 0, 16, 32, 160, 16⟩, ⟨false, 0, 300, 32, 16, 16, 308⟩] ≠ (0, 0) :=
  (resolution_constrains 320 240 0 0
    [⟨true, 152, 0, 16, 32, 160, 16⟩, ⟨false, 0, 300, 32, 16, 16, 308⟩]).1
    ⟨⟨true, 152, 0, 16, 32, 160, 16⟩, by decide, by decide⟩
    (Or.inl (by decide))

/-- C23 (as the spec states it, refuted): a 320x240 camera on a 640x480 map
follows a hero centered at (160, 120) between two vertical separators (lines
`x = 100` and `x = 200`), both active on the raw rectangle; with the registry
in one order the position is (0, 0), in the other order it is (100, 0). -/
theorem separator_order_matters :
    List.Perm [(⟨true, 92, 0, 16, 480, 100, 240⟩ : Separator), ⟨true, 192, 0, 16, 480, 200, 240⟩]
      [⟨true, 192, 0, 16, 480, 200, 240⟩, ⟨true, 92, 0, 16, 480, 100, 240⟩]
    ∧ (update_fixed_on_hero
        ⟨⟨0, 0, 640, 480⟩, ⟨152, 107, 160, 120⟩,
          [⟨true, 92, 0, 16, 480, 100, 240⟩, ⟨true, 192, 0, 16, 480, 200, 240⟩]⟩ 0
        (create ⟨0, 0, 320, 240⟩)).map (fun c => c.position) = some ⟨0, 0, 320, 240⟩
    ∧ (update_fixed_on_hero
        ⟨⟨0, 0, 640, 480⟩, ⟨152, 107, 160, 120⟩,
          [⟨true, 192, 0, 16, 480, 200, 240⟩, ⟨true, 92, 0, 16, 480, 100, 240⟩]⟩ 0
        (create ⟨0, 0, 320, 240⟩)).map (fun c => c.position) = some ⟨100, 0, 320, 240⟩ :=
  ⟨List.Perm.swap _ _ _, by decide, by decide⟩

/-- C23 (amended): when all the vertical separators active on the raw
rectangle have the same `x` and all the active horizontal separators have the
same `y` (in particular when at most one separator of each orientation is
active), `update_fixed_on_hero` returns the same camera for every permutation
of the registry. -/
theorem update_fixed_on_hero_perm (map : Map) (now : Nat) (cam : Camera)
    (seps : List Separator)
    (hfix : cam.fixed_on_hero = true)
    (hperm : map.separators.Perm seps)
    (hsame : same_lines cam.position.width cam.position.height
      (map.hero.center_x - Int.tdiv cam.position.width 2)
      (map.hero.center_y - Int.tdiv cam.position.height 2) map.separators) :
    ∃ c, update_fixed_on_hero map now cam = some c
      ∧ update_fixed_on_hero { map with separators := seps } now cam = some c := by
  have hres := resolve_separators_perm cam.position.width cam.position.height
    (map.hero.center_x - Int.tdiv cam.position.width 2)
    (map.hero.center_y - Int.tdiv cam.position.height 2) map.separators seps hperm hsame
  refine ⟨_, by simp only [update_fixed_on_hero, hfix, if_true]; rfl, ?_⟩
  simp only [update_fixed_on_hero, hfix, if_true, get_width, get_height,
    Rectangle.get_width, Rectangle.get_height, hres]

/-- Witness of C23 (amended): the two orders of a T junction (one vertical and
one horizontal separator) for a 100x100 camera. -/
theorem update_fixed_on_hero_perm_witness :
    ∃ c, update_fixed_on_hero
        ⟨⟨0, 0, 640, 480⟩, ⟨42, 37, 50, 50⟩,
          [⟨true, 32, 0, 16, 200, 40, 100⟩, ⟨false, 0, 42, 40, 16, 20, 50⟩]⟩ 0
        (create ⟨0, 0, 100, 100⟩) = some c
      ∧ update_fixed_on_hero
        ⟨⟨0, 0, 640, 480⟩, ⟨42, 37, 50, 50⟩,
          [⟨false, 0, 42, 40, 16, 20, 50⟩, ⟨true, 32, 0, 16, 200, 40, 100⟩]⟩ 0
        (create ⟨0, 0, 100, 100⟩) = some c :=
  update_fixed_on_hero_perm
    ⟨⟨0, 0, 640, 480⟩, ⟨42, 37, 50, 50⟩,
      [⟨true, 32, 0, 16, 200, 40, 100⟩, ⟨false, 0, 42, 40, 16, 20, 50⟩]⟩ 0
    (create ⟨0, 0, 100, 100⟩)
    [⟨false, 0, 42, 40, 16, 20, 50⟩, ⟨true, 32, 0, 16, 200, 40, 100⟩]
    rfl (List.Perm.swap _ _ _) (by unfold same_lines; decide)

/-- C24 (the code departs from the claim): after `traverse_separator` the
next scrolling date is the clock value modulo `2^32`: a traversal is in
progress and `is_moving` is true when that value is not zero, but at the
clock value 0 the date is 0, which means "not traversing", and `is_moving` is
false in the fixed-on-hero mode.  For a 320x240 camera at (0, 0) whose hero
touches a vertical separator, `traverse_separator` at the tick 0 moves the
hero by two pixels and the next `update` leaves the camera at (0, 0) with the
scrolling position unchanged, while at the tick 1 the same calls scroll to
(1, 0). -/
theorem traverse_separator_at_tick_zero (map : Map) (sep : Separator) (now : Nat)
    (cam : Camera) :
    (now % UINT32_SIZE ≠ 0 →
      (traverse_separator map sep now cam).1.separator_next_scrolling_date ≠ 0
      ∧ is_moving (traverse_separator map sep now cam).1 = true)
    ∧ (now % UINT32_SIZE = 0 →
      (traverse_separator map sep now cam).1.separator_next_scrolling_date = 0
      ∧ is_moving (traverse_separator map sep now cam).1 = !cam.fixed_on_hero)
    ∧ is_moving (traverse_separator
        ⟨⟨0, 0, 640, 480⟩, ⟨302, 107, 310, 120⟩, [⟨true, 312, 0, 16, 480, 320, 240⟩]⟩
        ⟨true, 312, 0, 16, 480, 320, 240⟩ 0 (create ⟨0, 0, 320, 240⟩)).1 = false
    ∧ (update_fixed_on_hero
        (traverse_separator
          ⟨⟨0, 0, 640, 480⟩, ⟨302, 107, 310, 120⟩, [⟨true, 312, 0, 16, 480, 320, 240⟩]⟩
          ⟨true, 312, 0, 16, 480, 320, 240⟩ 0 (create ⟨0, 0, 320, 240⟩)).2 1
        (traverse_separator
          ⟨⟨0, 0, 640, 480⟩, ⟨302, 107, 310, 120⟩, [⟨true, 312, 0, 16, 480, 320, 240⟩]⟩
          ⟨true, 312, 0, 16, 480, 320, 240⟩ 0 (create ⟨0, 0, 320, 240⟩)).1).map
        (fun c => (c.position, c.separator_scrolling_position))
      = some (⟨0, 0, 320, 240⟩, ⟨0, 0, 320, 240⟩)
    ∧ (update_fixed_on_hero
        (traverse_separator
          ⟨⟨0, 0, 640, 480⟩, ⟨302, 107, 310, 120⟩, [⟨true, 312, 0, 16, 480, 320, 240⟩]⟩
          ⟨true, 312, 0, 16, 480, 320, 240⟩ 1 (create ⟨0, 0, 320, 240⟩)).2 1
        (traverse_separator
          ⟨⟨0, 0, 640, 480⟩, ⟨302, 107, 310, 120⟩, [⟨true, 312, 0, 16, 480, 320, 240⟩]⟩
          ⟨true, 312, 0, 16, 480, 320, 240⟩ 1 (create ⟨0, 0, 320, 240⟩)).1).map
        (fun c => (c.position, c.separator_scrolling_position))
      = some (⟨1, 0, 320, 240⟩, ⟨1, 0, 320, 240⟩) := by
  refine ⟨?_, ?_, by decide, by decide, by decide⟩
  · intro h
    have hd : (traverse_separator map sep now cam).1.separator_next_scrolling_date
        = now % UINT32_SIZE := rfl
    refine ⟨by rw [hd]; exact h, ?_⟩
    simp only [is_moving, hd, Bool.or_eq_true, bne_iff_ne, ne_eq]
    exact Or.inr h
  · intro h
    have hd : (traverse_separator map sep now cam).1.separator_next_scrolling_date
        = now % UINT32_SIZE := rfl
    have hf : (traverse_separator map sep now cam).1.fixed_on_hero = cam.fixed_on_hero := rfl
    refine ⟨by rw [hd]; exact h, ?_⟩
    simp [is_moving, hd, hf, h]

/-- Witness of C24: at the tick 77 a traversal is in progress. -/
theorem traverse_separator_at_tick_zero_witness :
    (traverse_separator
        ⟨⟨0, 0, 640, 480⟩, ⟨302, 107, 310, 120⟩, [⟨true, 312, 0, 16, 480, 320, 240⟩]⟩
        ⟨true, 312, 0, 16, 480, 320, 240⟩ 77
        (create ⟨0, 0, 320, 240⟩)).1.separator_next_scrolling_date ≠ 0
    ∧ is_moving (traverse_separator
        ⟨⟨0, 0, 640, 480⟩, ⟨302, 107, 310, 120⟩, [⟨true, 312, 0, 16, 480, 320, 240⟩]⟩
        ⟨true, 312, 0, 16, 480, 320, 240⟩ 77 (create ⟨0, 0, 320, 240⟩)).1 = true :=
  (traverse_separator_at_tick_zero
    ⟨⟨0, 0, 640, 480⟩, ⟨302, 107, 310, 120⟩, [⟨true, 312, 0, 16, 480, 320, 240⟩]⟩
    ⟨true, 312, 0, 16, 480, 320, 240⟩ 77 (create ⟨0, 0, 320, 240⟩)).1 (by decide)

end Camera

end Solarus
